import Mathlib

/-!
Shallow embedding of the `wirkstoff-simulation` protein–ligand kinetics engine
(`src/Simulation.py`, the browser-optimized copy, and `src/Endprodukt.py`,
the earlier near-duplicate copy; they differ in `_update_particle_counts` and
`_create_particle`, and both variants are embedded below).

Coordinates are rational numbers.  The Python code works with floats and a
global random generator; every random draw is supplied here as an explicit
oracle argument (a displacement vector, a Boolean standing for the outcome of
a comparison `random.random() < p`, a unit direction vector, a kick
magnitude), so the embedding covers every possible run of the program.
Square roots (vector normalization, the Brownian scale factor) are irrational
over ℚ, so the normalized direction and the scaled displacement are the
oracle inputs, and distance comparisons are embedded squared.
-/

namespace Wirkstoff

/-- A 2-D vector with rational coordinates (embedding of `pygame.Vector2`). -/
structure Vec where
  x : ℚ
  y : ℚ
deriving DecidableEq

/-- Componentwise vector addition. -/
def Vec.add (a b : Vec) : Vec := ⟨a.x + b.x, a.y + b.y⟩

/-- Componentwise vector subtraction. -/
def Vec.sub (a b : Vec) : Vec := ⟨a.x - b.x, a.y - b.y⟩

/-- Scalar multiple of a vector. -/
def Vec.smul (c : ℚ) (a : Vec) : Vec := ⟨c * a.x, c * a.y⟩

/-- The zero vector. -/
def Vec.zero : Vec := ⟨0, 0⟩

/-- Squared Euclidean distance between two points.  The Python code compares
`a.distance_to(b) < r`; since the distance is a square root, the embedding
compares squares instead (see `distLt`). -/
def sqDist (a b : Vec) : ℚ := (a.x - b.x) ^ 2 + (a.y - b.y) ^ 2

/-- `distLt a b r` embeds `a.distance_to(b) < r` without square roots:
for the nonnegative real `dist a b`, `dist < r` holds iff `r` is positive
and `dist² < r²`. -/
def distLt (a b : Vec) (r : ℚ) : Bool := decide (0 < r ∧ sqDist a b < r ^ 2)

/-- An RGB color (the constants from the top of `Simulation.py`). -/
abbrev Color := ℕ × ℕ × ℕ

def PROTEIN_COLOR : Color := (255, 100, 100)
def NORMAL_LIGAND_COLOR : Color := (100, 150, 255)
def COMPETITOR_LIGAND_COLOR : Color := (255, 0, 0)
def BOUND_LIGAND_COLOR : Color := (255, 255, 0)

/-- `Protein.radius` class constant (= 15 in both copies). -/
def proteinRadius : ℚ := 15

/-- `Ligand.radius` class constant (= 6 in both copies). -/
def ligandRadius : ℚ := 6

/-- The two ligand species: `Ligand` itself (Normal) and the
`CompetitorLigand` subclass. -/
inductive Species where
  | normal
  | competitor
deriving DecidableEq

/-- `get_initial_color`: `NORMAL_LIGAND_COLOR` for `Ligand`,
`COMPETITOR_LIGAND_COLOR` for the `CompetitorLigand` override. -/
def initialColor : Species → Color
  | .normal => NORMAL_LIGAND_COLOR
  | .competitor => COMPETITOR_LIGAND_COLOR

/-- A reference to a ligand: which of the two collections
(`self.ligands` / `self.competitor_ligands`) and the index inside it.
The Python code holds direct object references; indices are stable here
because both copies only ever append at the end and pop from the end. -/
structure LigRef where
  species : Species
  idx : ℕ
deriving DecidableEq

/-- State of one `Ligand` (or `CompetitorLigand`) instance.  The species is
implied by which collection holds the ligand, and the radius is the class
constant `ligandRadius`. -/
structure Ligand where
  pos : Vec
  vel : Vec
  color : Color
  is_bound : Bool
  bound_to : Option ℕ
deriving DecidableEq

/-- State of one `Protein` instance.  `bound_ligands` is the protein's slot
list; the code treats it as a capacity-one slot but stores a Python list,
so the embedding keeps the list. -/
structure Protein where
  pos : Vec
  vel : Vec
  color : Color
  bound_ligands : List LigRef
deriving DecidableEq

/-- The `Parameters` dataclass (population targets are ints from sliders
with nonnegative ranges; rates and geometry are numeric). -/
structure Params where
  num_proteins : ℕ
  num_ligands : ℕ
  num_competitor_ligands : ℕ
  temperature : ℚ
  k_on : ℚ
  k_on_competitor : ℚ
  k_off : ℚ
  binding_radius : ℚ
  dt : ℚ
deriving DecidableEq

/-- The dataclass defaults from `Simulation.py`. -/
def defaultParams : Params :=
  { num_proteins := 20, num_ligands := 30, num_competitor_ligands := 30,
    temperature := 10, k_on := 1/10, k_on_competitor := 1/10, k_off := 1/100,
    binding_radius := 10, dt := 10 }

/-- An axis-aligned rectangle (embedding of `pygame.Rect`). -/
structure Rect where
  left : ℚ
  top : ℚ
  right : ℚ
  bottom : ℚ
deriving DecidableEq

/-- `self.sim_rect = pygame.Rect(0, 0, 900, 800)`
(`SCREEN_WIDTH - SIDEBAR_WIDTH = 1200 - 300`, `SCREEN_HEIGHT = 800`). -/
def simRect : Rect := ⟨0, 0, 900, 800⟩

/-- The width of a rectangle (pygame's `Rect.width`). -/
def Rect.width (r : Rect) : ℚ := r.right - r.left

/-- The height of a rectangle (pygame's `Rect.height`). -/
def Rect.height (r : Rect) : ℚ := r.bottom - r.top

/-- The whole mutable simulation state: the three particle collections, the
pause flag, the parameters, and the three metrics series kept by
`_initialize_graph` / `_update_graph_data`. -/
structure SimState where
  params : Params
  paused : Bool
  proteins : List Protein
  ligands : List Ligand
  competitors : List Ligand
  time_steps : List ℕ
  bound_ligands_data : List ℕ
  bound_competitor_data : List ℕ
deriving DecidableEq

/-! ### Particle kinematics -/

/-- One axis of `check_wall_collision_and_bounce` (`Simulation.py` 63-74,
`Endprodukt.py` 183-209): if the particle's extent crosses the low boundary,
clamp to it and negate the velocity; `elif` it crosses the high boundary,
clamp to that and negate.  Returns the corrected (position, velocity)
component pair. -/
def bounceAxis (lo hi radius p v : ℚ) : ℚ × ℚ :=
  if p - radius < lo then (lo + radius, -v)
  else if hi < p + radius then (hi - radius, -v)
  else (p, v)

/-- `check_wall_collision_and_bounce`: the two axes are corrected
independently by `bounceAxis`. -/
def wallBounce (rect : Rect) (radius : ℚ) (pos vel : Vec) : Vec × Vec :=
  let hx := bounceAxis rect.left rect.right radius pos.x vel.x
  let hy := bounceAxis rect.top rect.bottom radius pos.y vel.y
  (⟨hx.1, hy.1⟩, ⟨hx.2, hy.2⟩)

/-- `move_brownian` adds `uniform(-1,1)² * sqrt(temperature * dt)` to the
position; the already-scaled displacement vector is the oracle input `disp`
(the scale factor is an irrational square root, and no claim constrains the
displacement's magnitude). -/
def moveBrownian (disp : Vec) (pos : Vec) : Vec := Vec.add pos disp

/-- The move-phase update of one protein (`_update_simulation` move loop):
Brownian displacement followed by the wall bounce, with the protein's class
radius. -/
def moveProtein (rect : Rect) (disp : Vec) (p : Protein) : Protein :=
  let pv := wallBounce rect proteinRadius (moveBrownian disp p.pos) p.vel
  { p with pos := pv.1, vel := pv.2 }

/-- The move-phase update of one ligand: only free ligands
(`not particle.is_bound`) move and bounce; bound ligands are left alone. -/
def moveLig (rect : Rect) (disp : Vec) (l : Ligand) : Ligand :=
  if l.is_bound then l
  else
    let pv := wallBounce rect ligandRadius (moveBrownian disp l.pos) l.vel
    { l with pos := pv.1, vel := pv.2 }

/-! ### State accessors -/

/-- Replace the element at index `i` by `f` of it; out-of-range indices leave
the list unchanged (embedding of an in-place mutation of one list cell). -/
def updateAt {α : Type} (l : List α) (i : ℕ) (f : α → α) : List α :=
  match l[i]? with
  | some a => l.set i (f a)
  | none => l

/-- Look up the ligand a reference denotes. -/
def SimState.getLig (s : SimState) (r : LigRef) : Option Ligand :=
  match r.species with
  | .normal => s.ligands[r.idx]?
  | .competitor => s.competitors[r.idx]?

/-- Overwrite the ligand a reference denotes (no-op when out of range). -/
def SimState.setLig (s : SimState) (r : LigRef) (l : Ligand) : SimState :=
  match r.species with
  | .normal => { s with ligands := s.ligands.set r.idx l }
  | .competitor => { s with competitors := s.competitors.set r.idx l }

/-! ### Unbinding -/

/-- `Ligand.unbind` (`Simulation.py` 89-107, `Endprodukt.py` 243-311).

If `bound_to` is a protein: remove this ligand from the protein's
`bound_ligands` (first occurrence, `try/except ValueError: pass`, hence
`List.erase`), reposition the ligand at
`protein.position + direction * (protein.radius + ligand.radius + 2)`, give
it velocity `direction * kick`, and clear the binding state and color.

`dir` is the unit direction the code computes — the normalized
protein→ligand vector when it is nonzero, otherwise a random unit vector —
and `kick` is the `uniform(1, 2)` magnitude; both are oracle inputs because
normalization is an irrational operation over ℚ.  If `bound_to` is `None`
the code only clears the binding state and resets the color.

The inner `none` protein branch is a reference whose protein index is no
longer in the collection; in Python the popped object is still alive and the
ligand would be repositioned relative to it, but the branch is unreachable
from states satisfying the binding invariant `Inv` below, and the embedding
merely clears the binding state there. -/
def unbind (s : SimState) (r : LigRef) (dir : Vec) (kick : ℚ) : SimState :=
  match s.getLig r with
  | none => s
  | some lig =>
    match lig.bound_to with
    | none =>
        s.setLig r { lig with is_bound := false, bound_to := none,
                              color := initialColor r.species }
    | some pi =>
      match s.proteins[pi]? with
      | none =>
          s.setLig r { lig with is_bound := false, bound_to := none,
                                color := initialColor r.species }
      | some pro =>
          let sep := proteinRadius + ligandRadius + 2
          let lig' := { lig with
            pos := Vec.add pro.pos (Vec.smul sep dir),
            vel := Vec.smul kick dir,
            is_bound := false, bound_to := none,
            color := initialColor r.species }
          let ps := updateAt s.proteins pi
            (fun p => { p with bound_ligands := p.bound_ligands.erase r })
          let s' := { s with proteins := ps }
          s'.setLig r lig'

/-! ### Binding scan -/

/-- Whether the scan stops at protein index `i` for a free ligand at
`ligpos`: the protein's slot is empty (`if not protein.bound_ligands`), the
ligand is within `protein.radius + binding_radius` of it, and the
probability draw for this protein succeeds.  `draw i` is the outcome of
`random.random() < p_on` at protein `i`; occupied or out-of-range proteins
never reach the draw. -/
def bindsAt (proteins : List Protein) (ligpos : Vec) (brad : ℚ)
    (draw : ℕ → Bool) (i : ℕ) : Bool :=
  match proteins[i]? with
  | some p =>
      p.bound_ligands.isEmpty && distLt ligpos p.pos (proteinRadius + brad)
        && draw i
  | none => false

/-- The index where the scan of `for protein in self.proteins` stops, if
any: the first index whose protein is unoccupied, in range, and whose draw
succeeds (`Simulation.py` 316-324, `Endprodukt.py` 1051-1085). -/
def firstBindable (proteins : List Protein) (ligpos : Vec) (brad : ℚ)
    (draw : ℕ → Bool) : Option ℕ :=
  (List.range proteins.length).find? (bindsAt proteins ligpos brad draw)

/-- The free-ligand branch of the per-ligand loop: scan the proteins in
index order; at the first unoccupied in-range protein whose draw succeeds,
set `is_bound`, point `bound_to` at the protein, recolor the ligand, append
it to the protein's slot, and stop (`break`).  If the scan finds no such
protein the state is unchanged. -/
def bindLig (s : SimState) (r : LigRef) (draw : ℕ → Bool) : SimState :=
  match s.getLig r with
  | none => s
  | some lig =>
    match firstBindable s.proteins lig.pos s.params.binding_radius draw with
    | none => s
    | some i =>
        let ps := updateAt s.proteins i
          (fun p => { p with bound_ligands := p.bound_ligands ++ [r] })
        let s' := { s with proteins := ps }
        s'.setLig r { lig with is_bound := true, bound_to := some i,
                               color := BOUND_LIGAND_COLOR }

/-- The position snap of a bound ligand (`Simulation.py` 310-311):
`if ligand.bound_to: ligand.position = Vector2(ligand.bound_to.position)`.
The inner `none` branch (a reference to a no-longer-existing protein; in
Python the popped object is still alive) is unreachable under `Inv`. -/
def snapLig (s : SimState) (r : LigRef) : SimState :=
  match s.getLig r with
  | none => s
  | some lig =>
    match lig.bound_to with
    | some pi =>
        match s.proteins[pi]? with
        | some pro => s.setLig r { lig with pos := pro.pos }
        | none => s
    | none => s

/-- One iteration of the per-ligand loop of `_update_simulation`
(`Simulation.py` 308-324): a bound ligand snaps to its protein's position
and then unbinds when the `p_off` draw fires (`offDraw` is the outcome of
`random.random() < p_off`); a free ligand runs the binding scan. -/
def processLig (s : SimState) (r : LigRef) (offDraw : Bool)
    (onDraw : ℕ → Bool) (dir : Vec) (kick : ℚ) : SimState :=
  match s.getLig r with
  | none => s
  | some lig =>
    if lig.is_bound then
      if offDraw then unbind (snapLig s r) r dir kick else snapLig s r
    else bindLig s r onDraw

/-- All references into the ligand collections, in the iteration order of
`self.ligands + self.competitor_ligands`. -/
def ligRefs (s : SimState) : List LigRef :=
  (List.range s.ligands.length).map (fun i => ⟨Species.normal, i⟩) ++
    (List.range s.competitors.length).map (fun i => ⟨Species.competitor, i⟩)

/-- The per-run random data of one tick.  Displacements are indexed by the
particle's position in its collection; the draw outcomes, unbind direction
and kick are indexed by ligand reference.  Each field abstracts calls to the
single global `random` generator, so every actual run corresponds to some
oracle value. -/
structure Oracle where
  dispP : ℕ → Vec
  dispL : ℕ → Vec
  dispC : ℕ → Vec
  offDraw : LigRef → Bool
  onDraw : LigRef → ℕ → Bool
  dir : LigRef → Vec
  kick : LigRef → ℚ

/-- Index-aware map, used to hand each particle its own displacement. -/
def mapIdxFrom {α β : Type} (f : ℕ → α → β) : ℕ → List α → List β
  | _, [] => []
  | i, a :: as => f i a :: mapIdxFrom f (i + 1) as

/-- The move loop of `_update_simulation` (`Simulation.py` 303-307): every
protein, and every ligand that is not bound, performs the Brownian move and
the wall bounce. -/
def movePhase (o : Oracle) (s : SimState) : SimState :=
  { s with
    proteins := mapIdxFrom (fun i p => moveProtein simRect (o.dispP i) p) 0 s.proteins,
    ligands := mapIdxFrom (fun i l => moveLig simRect (o.dispL i) l) 0 s.ligands,
    competitors := mapIdxFrom (fun i l => moveLig simRect (o.dispC i) l) 0 s.competitors }

/-- `_update_simulation` (`Simulation.py` 301-324): when not paused, first
every protein and every free ligand moves and bounces, then the per-ligand
bind/unbind loop runs over `self.ligands + self.competitor_ligands`,
threading the state left to right. -/
def step (o : Oracle) (s : SimState) : SimState :=
  if s.paused then s
  else
    (ligRefs (movePhase o s)).foldl
      (fun st r => processLig st r (o.offDraw r) (o.onDraw r) (o.dir r) (o.kick r))
      (movePhase o s)

/-! ### Metrics -/

/-- The species of the ligand occupying a protein's slot, if any: the code
reads `protein.bound_ligands[0]` and tests `isinstance(_, CompetitorLigand)`;
the collection a reference points into records exactly that class. -/
def slotSpecies (p : Protein) : Option Species :=
  match p.bound_ligands.head? with
  | some r => some r.species
  | none => none

/-- The number of proteins whose slot is occupied by a ligand of species
`sp` (the two counters of `_update_graph_data`). -/
def countBound (proteins : List Protein) (sp : Species) : ℕ :=
  (proteins.filter (fun p => slotSpecies p = some sp)).length

/-- `_update_graph_data` (`Simulation.py` 197-210): append the current
length of `time_steps` to it, and the two occupancy counts to the two data
series. -/
def recordMetrics (s : SimState) : SimState :=
  { s with
    time_steps := s.time_steps ++ [s.time_steps.length],
    bound_ligands_data :=
      s.bound_ligands_data ++ [countBound s.proteins Species.normal],
    bound_competitor_data :=
      s.bound_competitor_data ++ [countBound s.proteins Species.competitor] }

/-- `_initialize_graph` (`Simulation.py` 192-195): reset all three series to
empty lists. -/
def resetGraph (s : SimState) : SimState :=
  { s with time_steps := [], bound_ligands_data := [],
           bound_competitor_data := [] }

/-! ### Spawn placement -/

/-- Position and radius of an existing particle, as `_create_particle` sees
it through `self.proteins + self.ligands + self.competitor_ligands`. -/
structure Sphere where
  pos : Vec
  radius : ℚ
deriving DecidableEq

/-- The flattened list of all current particles, in the order
`proteins + ligands + competitor_ligands`. -/
def allSpheres (s : SimState) : List Sphere :=
  s.proteins.map (fun p => ⟨p.pos, proteinRadius⟩) ++
    s.ligands.map (fun l => ⟨l.pos, ligandRadius⟩) ++
    s.competitors.map (fun l => ⟨l.pos, ligandRadius⟩)

/-- `dist < new.radius + particle.radius`: the overlap test of
`_create_particle`. -/
def overlapsB (p : Vec) (r : ℚ) (q : Sphere) : Bool :=
  distLt p q.pos (r + q.radius)

/-- A candidate position is accepted when it overlaps no existing
particle. -/
def acceptable (existing : List Sphere) (r : ℚ) (p : Vec) : Bool :=
  existing.all (fun q => !overlapsB p r q)

/-- `_create_particle` in `Simulation.py` (287-299): up to 100 attempts; the
`i`-th attempt samples `sample i` (the pair of
`random.randint(radius, dim - radius)` draws); the first acceptable sample
is returned, and after 100 failures the fallback is `particle_class(0, 0)`,
i.e. the origin. -/
def createPos (existing : List Sphere) (r : ℚ) (sample : ℕ → Vec) : Vec :=
  match (List.range 100).find? (fun i => acceptable existing r (sample i)) with
  | some i => sample i
  | none => Vec.zero

/-- `_create_particle` in `Endprodukt.py` (957-997): the same sampling loop
but `while True` with no attempt cap.  The loop is embedded with explicit
fuel; `none` means the loop has not returned within `fuel` attempts, so the
Python loop runs forever iff the result is `none` for every fuel. -/
def createPosE (existing : List Sphere) (r : ℚ) (sample : ℕ → Vec)
    (fuel : ℕ) : Option Vec :=
  match (List.range fuel).find? (fun i => acceptable existing r (sample i)) with
  | some i => some (sample i)
  | none => none

/-- A fresh `Protein(x, y)`: zero velocity, protein color, empty slot. -/
def newProtein (pos : Vec) : Protein :=
  ⟨pos, Vec.zero, PROTEIN_COLOR, []⟩

/-- A fresh `Ligand(x, y)` / `CompetitorLigand(x, y)`: zero velocity, the
species' initial color, unbound. -/
def newLigand (sp : Species) (pos : Vec) : Ligand :=
  ⟨pos, Vec.zero, initialColor sp, false, none⟩

/-- Append a ligand to its species' collection, returning the new state and
the reference to the appended ligand. -/
def appendLig (s : SimState) (sp : Species) (l : Ligand) : SimState × LigRef :=
  match sp with
  | .normal =>
      ({ s with ligands := s.ligands ++ [l] }, ⟨Species.normal, s.ligands.length⟩)
  | .competitor =>
      ({ s with competitors := s.competitors ++ [l] },
        ⟨Species.competitor, s.competitors.length⟩)

/-! ### Population reconciliation -/

/-- The growth loop for proteins (identical in both copies): `n` times,
create a particle against the current `allSpheres` and append it.
`smp j i` is the `i`-th sample of the `j`-th creation. -/
def addProteins (smp : ℕ → ℕ → Vec) : ℕ → SimState → SimState
  | 0, s => s
  | n + 1, s =>
      let pos := createPos (allSpheres s) proteinRadius (smp 0)
      addProteins (fun j => smp (j + 1)) n
        { s with proteins := s.proteins ++ [newProtein pos] }

/-- The growth loop for a ligand species (identical in both copies): `n`
times, create, append, and call `unbind()` on the fresh ligand.  The fresh
ligand has `bound_to = None`, so its `unbind` takes the branch that ignores
the direction and kick; they are passed as zero. -/
def addLigs (sp : Species) (smp : ℕ → ℕ → Vec) : ℕ → SimState → SimState
  | 0, s => s
  | n + 1, s =>
      let pos := createPos (allSpheres s) ligandRadius (smp 0)
      let sr := appendLig s sp (newLigand sp pos)
      addLigs sp (fun j => smp (j + 1)) n (unbind sr.1 sr.2 Vec.zero 0)

/-- The protein shrink loop of `Simulation.py` (271-273):
`self.proteins.pop().bound_ligands.clear()` — the last protein is dropped
and only the popped (now unreachable) object's slot list is cleared; no
ligand is unbound. -/
def removeProteinsSim : ℕ → SimState → SimState
  | 0, s => s
  | n + 1, s => removeProteinsSim n { s with proteins := s.proteins.dropLast }

/-- The ligand shrink loops of `Simulation.py` (277-279, 283-285):
`self.ligands.pop()` — the last ligand is dropped with no release from its
protein's slot. -/
def removeLigsSim (sp : Species) : ℕ → SimState → SimState
  | 0, s => s
  | n + 1, s =>
      match sp with
      | .normal => removeLigsSim sp n { s with ligands := s.ligands.dropLast }
      | .competitor =>
          removeLigsSim sp n { s with competitors := s.competitors.dropLast }

/-- One protein removal in `Endprodukt.py` (883-891): the code pops the
protein and then calls `ligand.unbind()` for each ligand in (a copy of) the
popped object's slot list.  The embedding unbinds those ligands first and
then drops the last protein, which yields the same state: the popped
protein's own fields are no longer observable, and `unbind` updates the
ligands identically either way.  `dirs i` / `kicks i` are the unbind oracle
values for the `i`-th slot entry. -/
def removeProteinE (dirs : ℕ → Vec) (kicks : ℕ → ℚ) (s : SimState) : SimState :=
  match s.proteins.getLast? with
  | none => s
  | some lastP =>
      let s' := lastP.bound_ligands.enum.foldl
        (fun st ir => unbind st ir.2 (dirs ir.1) (kicks ir.1)) s
      { s' with proteins := s'.proteins.dropLast }

/-- The protein shrink loop of `Endprodukt.py`, `n` removals. -/
def removeProteinsE (dirs : ℕ → ℕ → Vec) (kicks : ℕ → ℕ → ℚ) :
    ℕ → SimState → SimState
  | 0, s => s
  | n + 1, s =>
      removeProteinsE (fun j => dirs (j + 1)) (fun j => kicks (j + 1)) n
        (removeProteinE (dirs 0) (kicks 0) s)

/-- One ligand removal in `Endprodukt.py` (917-921, 947-951):
`self.ligands[-1].unbind()` then `self.ligands.pop()`, guarded by
`if self.ligands:`. -/
def removeLigE (sp : Species) (dir : Vec) (kick : ℚ) (s : SimState) : SimState :=
  match sp with
  | .normal =>
      if s.ligands.isEmpty then s
      else
        let s' := unbind s ⟨Species.normal, s.ligands.length - 1⟩ dir kick
        { s' with ligands := s'.ligands.dropLast }
  | .competitor =>
      if s.competitors.isEmpty then s
      else
        let s' := unbind s ⟨Species.competitor, s.competitors.length - 1⟩ dir kick
        { s' with competitors := s'.competitors.dropLast }

/-- The ligand shrink loop of `Endprodukt.py`, `n` removals. -/
def removeLigsE (sp : Species) (dirs : ℕ → Vec) (kicks : ℕ → ℚ) :
    ℕ → SimState → SimState
  | 0, s => s
  | n + 1, s =>
      removeLigsE sp (fun j => dirs (j + 1)) (fun j => kicks (j + 1)) n
        (removeLigE sp (dirs 0) (kicks 0) s)

/-- The random data consumed by reconciliation and reset: nested sample
streams for the three creation loops and unbind direction/kick streams for
the removal loops of the `Endprodukt.py` copy. -/
structure SpawnOracle where
  sampleP : ℕ → ℕ → Vec
  sampleL : ℕ → ℕ → Vec
  sampleC : ℕ → ℕ → Vec
  remDirP : ℕ → ℕ → Vec
  remKickP : ℕ → ℕ → ℚ
  remDirL : ℕ → Vec
  remKickL : ℕ → ℚ
  remDirC : ℕ → Vec
  remKickC : ℕ → ℚ

/-- The protein block of `_update_particle_counts` in `Simulation.py`
(268-273): grow by spawning, or shrink by popping with no release of
bindings. -/
def reconcileProteinsSim (o : SpawnOracle) (s : SimState) : SimState :=
  if s.proteins.length < s.params.num_proteins then
    addProteins o.sampleP (s.params.num_proteins - s.proteins.length) s
  else if s.params.num_proteins < s.proteins.length then
    removeProteinsSim (s.proteins.length - s.params.num_proteins) s
  else s

/-- The normal-ligand block of `Simulation.py` (274-279). -/
def reconcileLigsSim (o : SpawnOracle) (s : SimState) : SimState :=
  if s.ligands.length < s.params.num_ligands then
    addLigs Species.normal o.sampleL (s.params.num_ligands - s.ligands.length) s
  else if s.params.num_ligands < s.ligands.length then
    removeLigsSim Species.normal (s.ligands.length - s.params.num_ligands) s
  else s

/-- The competitor block of `Simulation.py` (280-285). -/
def reconcileCompsSim (o : SpawnOracle) (s : SimState) : SimState :=
  if s.competitors.length < s.params.num_competitor_ligands then
    addLigs Species.competitor o.sampleC
      (s.params.num_competitor_ligands - s.competitors.length) s
  else if s.params.num_competitor_ligands < s.competitors.length then
    removeLigsSim Species.competitor
      (s.competitors.length - s.params.num_competitor_ligands) s
  else s

/-- `_update_particle_counts` in `Simulation.py` (267-285): reconcile each
collection to its slider target, kind by kind, in source order; shrinking
pops with no release of bindings. -/
def reconcileSim (o : SpawnOracle) (s : SimState) : SimState :=
  reconcileCompsSim o (reconcileLigsSim o (reconcileProteinsSim o s))

/-- The protein block of `_update_particle_counts` in `Endprodukt.py`
(863-891): shrinking unbinds every ligand bound to a removed protein. -/
def reconcileProteinsE (o : SpawnOracle) (s : SimState) : SimState :=
  if s.proteins.length < s.params.num_proteins then
    addProteins o.sampleP (s.params.num_proteins - s.proteins.length) s
  else if s.params.num_proteins < s.proteins.length then
    removeProteinsE o.remDirP o.remKickP
      (s.proteins.length - s.params.num_proteins) s
  else s

/-- The normal-ligand block of `Endprodukt.py` (895-921): shrinking
unbinds the popped ligand first. -/
def reconcileLigsE (o : SpawnOracle) (s : SimState) : SimState :=
  if s.ligands.length < s.params.num_ligands then
    addLigs Species.normal o.sampleL (s.params.num_ligands - s.ligands.length) s
  else if s.params.num_ligands < s.ligands.length then
    removeLigsE Species.normal o.remDirL o.remKickL
      (s.ligands.length - s.params.num_ligands) s
  else s

/-- The competitor block of `Endprodukt.py` (925-951). -/
def reconcileCompsE (o : SpawnOracle) (s : SimState) : SimState :=
  if s.competitors.length < s.params.num_competitor_ligands then
    addLigs Species.competitor o.sampleC
      (s.params.num_competitor_ligands - s.competitors.length) s
  else if s.params.num_competitor_ligands < s.competitors.length then
    removeLigsE Species.competitor o.remDirC o.remKickC
      (s.competitors.length - s.params.num_competitor_ligands) s
  else s

/-- `_update_particle_counts` in `Endprodukt.py` (855-951): the same
reconciliation as `reconcileSim`, but every removal first releases
bindings through `unbind`. -/
def reconcileE (o : SpawnOracle) (s : SimState) : SimState :=
  reconcileCompsE o (reconcileLigsE o (reconcileProteinsE o s))

/-- `_initialize_particles` (`Simulation.py` 251-265): clear the three
collections, then create `num_proteins` proteins, `num_ligands` ligands and
`num_competitor_ligands` competitors; each fresh ligand is passed through
`unbind()`. -/
def resetParticles (o : SpawnOracle) (s : SimState) : SimState :=
  let s0 := { s with proteins := [], ligands := [], competitors := [] }
  let s1 := addProteins o.sampleP s.params.num_proteins s0
  let s2 := addLigs Species.normal o.sampleL s.params.num_ligands s1
  addLigs Species.competitor o.sampleC s.params.num_competitor_ligands s2

/-! ### The transition probability -/

/-- The per-tick transition probability `p = 1 - exp(-k * dt)` computed at
`Simulation.py` 313 and 320 (and `Endprodukt.py` 1041, 1067, 1071).
`e` abstracts `math.exp`, the real exponential function: `Real.exp` has no
executable code in Lean, so it is taken as an argument here and every
theorem instantiates `e := Real.exp`. -/
def pTransition (e : ℝ → ℝ) (k dt : ℝ) : ℝ := 1 - e (-(k * dt))

/-- `p_off = 1 - math.exp(-self.params.k_off * self.params.dt)`: the
unbinding probability of the bound branch. -/
def pOff (e : ℝ → ℝ) (ps : Params) : ℝ :=
  pTransition e (ps.k_off : ℝ) (ps.dt : ℝ)

/-- `p_on`: the binding probability of the free branch, chosen by species —
`k_on_competitor` for a `CompetitorLigand` and `k_on` otherwise. -/
def pOn (e : ℝ → ℝ) (ps : Params) (sp : Species) : ℝ :=
  match sp with
  | .normal => pTransition e (ps.k_on : ℝ) (ps.dt : ℝ)
  | .competitor => pTransition e (ps.k_on_competitor : ℝ) (ps.dt : ℝ)

/-! ### The binding invariant -/

/-- `slotOK s i p`: protein `p`, sitting at index `i`, holds at most one
ligand, and every reference in its slot resolves to a ligand that points
back at index `i` and is marked bound. -/
def slotOK (s : SimState) (i : ℕ) (p : Protein) : Prop :=
  p.bound_ligands.length ≤ 1 ∧
    ∀ r ∈ p.bound_ligands,
      match s.getLig r with
      | some lig => lig.bound_to = some i ∧ lig.is_bound = true
      | none => False

/-- `ligOK s r lig`: the ligand at reference `r` is consistent — bound with
a back-reference to a protein of the collection whose slot contains `r`, or
free with no back-reference. -/
def ligOK (s : SimState) (r : LigRef) (lig : Ligand) : Prop :=
  if lig.is_bound then
    match lig.bound_to with
    | some i =>
        match s.proteins[i]? with
        | some p => r ∈ p.bound_ligands
        | none => False
    | none => False
  else lig.bound_to = none

/-- The bidirectional binding invariant of the data model: every slot holds
at most one ligand and the protein↔ligand references are mutually
consistent. -/
def Inv (s : SimState) : Prop :=
  (∀ i p, s.proteins[i]? = some p → slotOK s i p) ∧
    ∀ r lig, s.getLig r = some lig → ligOK s r lig

/-! ## Basic lemmas -/

theorem length_updateAt {α : Type} (l : List α) (i : ℕ) (f : α → α) :
    (updateAt l i f).length = l.length := by
  unfold updateAt
  cases h : l[i]? with
  | none => rfl
  | some a => simp [List.length_set]

theorem getElem?_updateAt {α : Type} (l : List α) (i : ℕ) (f : α → α) (j : ℕ) :
    (updateAt l i f)[j]? = if i = j then (l[j]?).map f else l[j]? := by
  unfold updateAt
  cases h : l[i]? with
  | none =>
      rcases Nat.lt_or_ge i l.length with hi | hi
      · simp [List.getElem?_eq_getElem hi] at h
      · by_cases hij : i = j
        · subst hij
          simp [List.getElem?_eq_none hi]
        · simp [hij]
  | some a =>
      by_cases hij : i = j
      · subst hij
        have hi : i < l.length := by
          by_contra hge
          simp [List.getElem?_eq_none (Nat.le_of_not_lt hge)] at h
        simp [List.getElem?_set_self hi, h]
      · simp [List.getElem?_set_ne hij, hij]

theorem sqDist_add_smul (a d : Vec) (c : ℚ) :
    sqDist (Vec.add a (Vec.smul c d)) a = c ^ 2 * (d.x ^ 2 + d.y ^ 2) := by
  simp only [sqDist, Vec.add, Vec.smul]
  ring

/-! ## C2: the transition probability is exactly `1 - exp(-k·dt)` -/

/-- C2: the per-tick transition probability used by the engine is exactly
`1 - exp(-k*dt)` — `pOff` uses `k_off`, `pOn` uses `k_on` for a Normal
ligand and `k_on_competitor` for a Competitor ligand; the value is `0` when
`k = 0`, and `1 - exp(-x)` tends to `1` as `x = k*dt` tends to infinity
(the probability is `pTransition` evaluated at `k*dt`, so `p → 1` as
`k*dt → ∞`). -/
theorem c2_transition_probability_exact :
    (∀ ps : Params,
        pOff Real.exp ps = 1 - Real.exp (-((ps.k_off : ℝ) * (ps.dt : ℝ))) ∧
        pOn Real.exp ps Species.normal
          = 1 - Real.exp (-((ps.k_on : ℝ) * (ps.dt : ℝ))) ∧
        pOn Real.exp ps Species.competitor
          = 1 - Real.exp (-((ps.k_on_competitor : ℝ) * (ps.dt : ℝ)))) ∧
    (∀ k dt : ℝ, pTransition Real.exp k dt = 1 - Real.exp (-(k * dt))) ∧
    (∀ dt : ℝ, pTransition Real.exp 0 dt = 0) ∧
    Filter.Tendsto (fun x : ℝ => pTransition Real.exp x 1)
      Filter.atTop (nhds 1) := by
  refine ⟨fun ps => ⟨rfl, rfl, rfl⟩, fun k dt => rfl, fun dt => ?_, ?_⟩
  · simp [pTransition]
  · have h0 : Filter.Tendsto (fun x : ℝ => Real.exp (-x))
        Filter.atTop (nhds 0) := Real.tendsto_exp_neg_atTop_nhds_zero
    have h1 : Filter.Tendsto (fun x : ℝ => 1 - Real.exp (-x))
        Filter.atTop (nhds (1 - 0)) := Filter.Tendsto.const_sub 1 h0
    simp only [sub_zero] at h1
    have : (fun x : ℝ => pTransition Real.exp x 1)
        = fun x : ℝ => 1 - Real.exp (-x) := by
      funext x
      simp [pTransition]
    rw [this]
    exact h1

/-! ## C7: the wall bounce -/

/-- The x components of `wallBounce` are `bounceAxis` on the horizontal
boundaries. -/
theorem wallBounce_x (rect : Rect) (radius : ℚ) (pos vel : Vec) :
    (wallBounce rect radius pos vel).1.x
        = (bounceAxis rect.left rect.right radius pos.x vel.x).1 ∧
    (wallBounce rect radius pos vel).2.x
        = (bounceAxis rect.left rect.right radius pos.x vel.x).2 :=
  ⟨rfl, rfl⟩

/-- The y components of `wallBounce` are `bounceAxis` on the vertical
boundaries. -/
theorem wallBounce_y (rect : Rect) (radius : ℚ) (pos vel : Vec) :
    (wallBounce rect radius pos vel).1.y
        = (bounceAxis rect.top rect.bottom radius pos.y vel.y).1 ∧
    (wallBounce rect radius pos vel).2.y
        = (bounceAxis rect.top rect.bottom radius pos.y vel.y).2 :=
  ⟨rfl, rfl⟩

/-- A corrected axis is clamped to the crossed boundary with its velocity
negated, and — provided the interval admits the diameter — the clamped
center lies in `[lo + radius, hi - radius]`. -/
theorem bounceAxis_corrected (lo hi radius p v : ℚ) (hwd : 2 * radius ≤ hi - lo)
    (h : p - radius < lo ∨ hi < p + radius) :
    (lo + radius ≤ (bounceAxis lo hi radius p v).1 ∧
      (bounceAxis lo hi radius p v).1 ≤ hi - radius) ∧
    (bounceAxis lo hi radius p v).2 = -v := by
  by_cases h1 : p - radius < lo
  · have he : bounceAxis lo hi radius p v = (lo + radius, -v) := by
      unfold bounceAxis
      rw [if_pos h1]
    rw [he]
    refine ⟨⟨le_refl _, ?_⟩, rfl⟩
    show lo + radius ≤ hi - radius
    linarith
  · have h2 : hi < p + radius := h.resolve_left h1
    have he : bounceAxis lo hi radius p v = (hi - radius, -v) := by
      unfold bounceAxis
      rw [if_neg h1, if_pos h2]
    rw [he]
    refine ⟨⟨?_, le_refl _⟩, rfl⟩
    show lo + radius ≤ hi - radius
    linarith

/-- An uncorrected axis is left exactly as it was. -/
theorem bounceAxis_uncorrected (lo hi radius p v : ℚ)
    (h : ¬(p - radius < lo ∨ hi < p + radius)) :
    bounceAxis lo hi radius p v = (p, v) := by
  push_neg at h
  unfold bounceAxis
  simp only [if_neg (not_lt.2 h.1), if_neg (not_lt.2 h.2)]

/-- After `bounceAxis` the center always lies in `[lo + radius, hi - radius]`
(whether or not a correction fired), provided the interval admits the
diameter. -/
theorem bounceAxis_mem (lo hi radius p v : ℚ) (hwd : 2 * radius ≤ hi - lo) :
    lo + radius ≤ (bounceAxis lo hi radius p v).1 ∧
      (bounceAxis lo hi radius p v).1 ≤ hi - radius := by
  by_cases h : p - radius < lo ∨ hi < p + radius
  · exact (bounceAxis_corrected lo hi radius p v hwd h).1
  · rw [bounceAxis_uncorrected lo hi radius p v h]
    push_neg at h
    exact ⟨by linarith [h.1], by linarith [h.2]⟩

/-- C7 counterexample: with radius 10 in a strip of width 5 the x-axis is
corrected (the particle crosses the min boundary), but the corrected center
`left + radius = 10` does not lie in `[min + radius, max - radius] =
[10, -5]`, which is empty; so the claim fails for this arena rectangle. -/
theorem c7_counterexample :
    ((-1 : ℚ) - 10 < 0) ∧
    ¬ ((0 + 10 : ℚ) ≤ (wallBounce ⟨0, 0, 5, 800⟩ 10 ⟨-1, 400⟩ ⟨1, 1⟩).1.x ∧
        (wallBounce ⟨0, 0, 5, 800⟩ 10 ⟨-1, 400⟩ ⟨1, 1⟩).1.x ≤ 5 - 10) := by
  constructor
  · norm_num
  · intro hmem
    have hx : (wallBounce ⟨0, 0, 5, 800⟩ 10 ⟨-1, 400⟩ ⟨1, 1⟩).1.x = 10 := by
      show (bounceAxis 0 5 10 (-1) 1).1 = 10
      unfold bounceAxis
      norm_num
    rw [hx] at hmem
    norm_num at hmem

/-- C7 (amended): provided the arena is at least `2 * radius` wide and tall,
`check_wall_collision_and_bounce` leaves each corrected axis' center inside
`[min + radius, max - radius]` with that axis' velocity negated, corrects
each axis at most once (an uncorrected axis is left exactly as it was), and
treats the two axes independently. -/
theorem c7_wall_bounce_corrected_axis (rect : Rect) (radius : ℚ)
    (pos vel : Vec) (hw : 2 * radius ≤ rect.width)
    (hh : 2 * radius ≤ rect.height) :
    ((pos.x - radius < rect.left ∨ rect.right < pos.x + radius) →
        (rect.left + radius ≤ (wallBounce rect radius pos vel).1.x ∧
          (wallBounce rect radius pos vel).1.x ≤ rect.right - radius) ∧
        (wallBounce rect radius pos vel).2.x = -vel.x) ∧
    (¬(pos.x - radius < rect.left ∨ rect.right < pos.x + radius) →
        (wallBounce rect radius pos vel).1.x = pos.x ∧
        (wallBounce rect radius pos vel).2.x = vel.x) ∧
    ((pos.y - radius < rect.top ∨ rect.bottom < pos.y + radius) →
        (rect.top + radius ≤ (wallBounce rect radius pos vel).1.y ∧
          (wallBounce rect radius pos vel).1.y ≤ rect.bottom - radius) ∧
        (wallBounce rect radius pos vel).2.y = -vel.y) ∧
    (¬(pos.y - radius < rect.top ∨ rect.bottom < pos.y + radius) →
        (wallBounce rect radius pos vel).1.y = pos.y ∧
        (wallBounce rect radius pos vel).2.y = vel.y) := by
  unfold Rect.width at hw
  unfold Rect.height at hh
  obtain ⟨hpx, hvx⟩ := wallBounce_x rect radius pos vel
  obtain ⟨hpy, hvy⟩ := wallBounce_y rect radius pos vel
  refine ⟨fun hx => ?_, fun hx => ?_, fun hy => ?_, fun hy => ?_⟩
  · obtain ⟨hmem, hneg⟩ :=
      bounceAxis_corrected rect.left rect.right radius pos.x vel.x hw hx
    exact ⟨by rw [hpx]; exact hmem, by rw [hvx, hneg]⟩
  · have h := bounceAxis_uncorrected rect.left rect.right radius pos.x vel.x hx
    exact ⟨by rw [hpx, h], by rw [hvx, h]⟩
  · obtain ⟨hmem, hneg⟩ :=
      bounceAxis_corrected rect.top rect.bottom radius pos.y vel.y hh hy
    exact ⟨by rw [hpy]; exact hmem, by rw [hvy, hneg]⟩
  · have h := bounceAxis_uncorrected rect.top rect.bottom radius pos.y vel.y hy
    exact ⟨by rw [hpy, h], by rw [hvy, h]⟩

/-- Witness for the amended C7 at a concrete input: the simulation arena,
a protein radius, a position crossing the left wall. -/
theorem c7_wall_bounce_witness :
    ((2 : ℚ) * 15 ≤ Rect.width simRect ∧ (2 : ℚ) * 15 ≤ Rect.height simRect) ∧
    (((-3 : ℚ) - 15 < 0 ∨ (900 : ℚ) < -3 + 15) →
        ((0 : ℚ) + 15 ≤ (wallBounce simRect 15 ⟨-3, 400⟩ ⟨2, 1⟩).1.x ∧
          (wallBounce simRect 15 ⟨-3, 400⟩ ⟨2, 1⟩).1.x ≤ 900 - 15) ∧
        (wallBounce simRect 15 ⟨-3, 400⟩ ⟨2, 1⟩).2.x = -(2 : ℚ)) := by
  refine ⟨⟨by norm_num [Rect.width, simRect], by norm_num [Rect.height, simRect]⟩, ?_⟩
  exact (c7_wall_bounce_corrected_axis simRect 15 ⟨-3, 400⟩ ⟨2, 1⟩
    (by norm_num [Rect.width, simRect]) (by norm_num [Rect.height, simRect])).1

/-! ## C9: the metrics series -/

/-- C9: one call of the recorder appends exactly one entry to each series —
the count of proteins whose slot is occupied by a Normal ligand and the
count occupied by a Competitor ligand — the series are append-only and the
tick index recorded is the current length (so after `k` ticks from a reset
the index series is exactly `0, 1, ..., k-1` and both data series have
length `k`; with zero ticks both have length 0). -/
theorem c9_metrics_series :
    (∀ s : SimState,
        (recordMetrics s).time_steps = s.time_steps ++ [s.time_steps.length] ∧
        (recordMetrics s).bound_ligands_data
          = s.bound_ligands_data ++ [countBound s.proteins Species.normal] ∧
        (recordMetrics s).bound_competitor_data
          = s.bound_competitor_data ++ [countBound s.proteins Species.competitor]) ∧
    (∀ s : SimState,
        (resetGraph s).time_steps = [] ∧
        (resetGraph s).bound_ligands_data = [] ∧
        (resetGraph s).bound_competitor_data = []) ∧
    (∀ (s : SimState) (k : ℕ),
        (recordMetrics^[k] (resetGraph s)).time_steps = List.range k ∧
        (recordMetrics^[k] (resetGraph s)).bound_ligands_data.length = k ∧
        (recordMetrics^[k] (resetGraph s)).bound_competitor_data.length = k) := by
  refine ⟨fun s => ⟨rfl, rfl, rfl⟩, fun s => ⟨rfl, rfl, rfl⟩, fun s k => ?_⟩
  induction k with
  | zero => simp [resetGraph]
  | succ n ih =>
      rw [Function.iterate_succ_apply']
      refine ⟨?_, ?_, ?_⟩
      · show (recordMetrics^[n] (resetGraph s)).time_steps
            ++ [(recordMetrics^[n] (resetGraph s)).time_steps.length]
            = List.range (n + 1)
        rw [ih.1, List.range_succ, List.length_range]
      · show ((recordMetrics^[n] (resetGraph s)).bound_ligands_data
            ++ [countBound (recordMetrics^[n] (resetGraph s)).proteins Species.normal]).length
            = n + 1
        simp [ih.2.1]
      · show ((recordMetrics^[n] (resetGraph s)).bound_competitor_data
            ++ [countBound (recordMetrics^[n] (resetGraph s)).proteins Species.competitor]).length
            = n + 1
        simp [ih.2.2]

/-! ## C10: a paused step is a no-op -/

/-- C10: when the paused flag is set, one call of `_update_simulation`
returns the state unchanged — in particular every particle's position,
velocity, color and binding state, and the three collections, are exactly
as before. -/
theorem c10_paused_step_is_noop (o : Oracle) (s : SimState)
    (h : s.paused = true) :
    step o s = s ∧ (step o s).proteins = s.proteins ∧
    (step o s).ligands = s.ligands ∧ (step o s).competitors = s.competitors := by
  have hs : step o s = s := by
    unfold step
    simp [h]
  exact ⟨hs, by rw [hs], by rw [hs], by rw [hs]⟩

/-- A paused concrete state for the C10 witness. -/
def pausedDemo : SimState :=
  { params := defaultParams, paused := true,
    proteins := [⟨⟨100, 100⟩, Vec.zero, PROTEIN_COLOR, []⟩],
    ligands := [⟨⟨105, 100⟩, Vec.zero, NORMAL_LIGAND_COLOR, false, none⟩],
    competitors := [], time_steps := [], bound_ligands_data := [],
    bound_competitor_data := [] }

/-- An arbitrary concrete oracle, used by witnesses. -/
def demoOracle : Oracle :=
  { dispP := fun _ => ⟨3, 4⟩, dispL := fun _ => ⟨-2, 5⟩, dispC := fun _ => ⟨1, 1⟩,
    offDraw := fun _ => true, onDraw := fun _ _ => true,
    dir := fun _ => ⟨1, 0⟩, kick := fun _ => 1 }

/-- Witness for C10: the paused demo state is returned unchanged. -/
theorem c10_paused_step_witness :
    pausedDemo.paused = true ∧ step demoOracle pausedDemo = pausedDemo :=
  ⟨rfl, (c10_paused_step_is_noop demoOracle pausedDemo rfl).1⟩

/-! ## C6: spawn placement -/

theorem sqDist_nonneg (a b : Vec) : 0 ≤ sqDist a b := by
  unfold sqDist
  positivity

theorem distLt_iff (a b : Vec) (r : ℚ) :
    distLt a b r = true ↔ 0 < r ∧ sqDist a b < r ^ 2 := by
  unfold distLt
  exact decide_eq_true_iff

theorem acceptable_iff (ex : List Sphere) (r : ℚ) (p : Vec) :
    acceptable ex r p = true
      ↔ ∀ q ∈ ex, ¬(0 < r + q.radius ∧ sqDist p q.pos < (r + q.radius) ^ 2) := by
  unfold acceptable overlapsB
  rw [List.all_eq_true]
  constructor
  · intro hall q hq
    have := hall q hq
    rw [Bool.not_eq_true'] at this
    rw [← distLt_iff p q.pos (r + q.radius)]
    simp [this]
  · intro hall q hq
    have := hall q hq
    rw [← distLt_iff p q.pos (r + q.radius)] at this
    simp [Bool.not_eq_true'] at this ⊢
    exact this

/-- From an accepted position and nonnegative radii: squared distance to
every existing particle is at least the squared sum of radii. -/
theorem acceptable_sqDist (ex : List Sphere) (r : ℚ) (p : Vec) (hr : 0 ≤ r)
    (hex : ∀ q ∈ ex, 0 ≤ q.radius) (hacc : acceptable ex r p = true) :
    ∀ q ∈ ex, (r + q.radius) ^ 2 ≤ sqDist p q.pos := by
  intro q hq
  have hsum : 0 ≤ r + q.radius := add_nonneg hr (hex q hq)
  have h := (acceptable_iff ex r p).1 hacc q hq
  rcases lt_or_eq_of_le hsum with hpos | hzero
  · by_contra hlt
    exact h ⟨hpos, lt_of_not_le hlt⟩
  · rw [← hzero]
    simpa using sqDist_nonneg p q.pos

/-- C6: the `Simulation.py` spawn placement returns within the 100-attempt
cap: either some accepted sample among the first 100 — which then overlaps
no existing particle (squared distance at least the squared sum of radii)
and keeps margin `r` to every boundary, by the `randint` range — or the
best-effort fallback position `(0, 0)`.  The `Endprodukt.py` copy of the
same routine has no cap: on a saturated input (an existing particle
covering every sample) it returns for no amount of fuel, i.e. the
`while True` loop never terminates. -/
theorem c6_spawn_placement (existing : List Sphere) (r w h : ℚ)
    (sample : ℕ → Vec) (hr : 0 ≤ r) (hex : ∀ q ∈ existing, 0 ≤ q.radius)
    (hin : ∀ i, r ≤ (sample i).x ∧ (sample i).x ≤ w - r ∧
        r ≤ (sample i).y ∧ (sample i).y ≤ h - r) :
    ((∃ i, i < 100 ∧ createPos existing r sample = sample i ∧
        acceptable existing r (sample i) = true ∧
        (∀ q ∈ existing,
          (r + q.radius) ^ 2 ≤ sqDist (createPos existing r sample) q.pos) ∧
        r ≤ (createPos existing r sample).x ∧
        (createPos existing r sample).x ≤ w - r ∧
        r ≤ (createPos existing r sample).y ∧
        (createPos existing r sample).y ≤ h - r) ∨
      (createPos existing r sample = Vec.zero ∧
        ∀ i, i < 100 → acceptable existing r (sample i) = false)) ∧
    ¬ ∃ fuel v,
        createPosE [⟨⟨450, 400⟩, 2000⟩] 6 (fun _ => ⟨450, 400⟩) fuel = some v := by
  constructor
  · unfold createPos
    cases hfind : (List.range 100).find?
        (fun i => acceptable existing r (sample i)) with
    | none =>
        right
        refine ⟨rfl, fun i hi => ?_⟩
        have := List.find?_eq_none.1 hfind i (List.mem_range.2 hi)
        exact Bool.eq_false_iff.2 (by simpa using this)
    | some i =>
        left
        have hacc : acceptable existing r (sample i) = true := by
          have := List.find?_some hfind
          simpa using this
        have hi : i < 100 :=
          List.mem_range.1 (List.mem_of_find?_eq_some hfind)
        refine ⟨i, hi, rfl, hacc, ?_, (hin i).1, (hin i).2.1,
          (hin i).2.2.1, (hin i).2.2.2⟩
        exact acceptable_sqDist existing r (sample i) hr hex hacc
  · rintro ⟨fuel, v, hv⟩
    have hconst :
        acceptable [⟨⟨450, 400⟩, 2000⟩] 6 (⟨450, 400⟩ : Vec) = false := by
      rw [Bool.eq_false_iff]
      intro hacc
      have hall := (acceptable_iff _ _ _).1 hacc ⟨⟨450, 400⟩, 2000⟩
        (List.mem_singleton.2 rfl)
      refine hall ⟨by norm_num, ?_⟩
      show sqDist ⟨450, 400⟩ ⟨450, 400⟩ < ((6 : ℚ) + 2000) ^ 2
      unfold sqDist
      norm_num
    unfold createPosE at hv
    have hnone : (List.range fuel).find?
        (fun i => acceptable [⟨⟨450, 400⟩, 2000⟩] 6
          ((fun _ : ℕ => (⟨450, 400⟩ : Vec)) i)) = none := by
      rw [List.find?_eq_none]
      intro x hx
      simp [hconst]
    rw [hnone] at hv
    exact Option.noConfusion hv

/-- Witness for C6 at a concrete input: an empty arena, radius 15, arena
900×800, constant sample `(450, 400)`. -/
theorem c6_spawn_placement_witness :
    (∃ i, i < 100 ∧
        createPos [] 15 (fun _ => (⟨450, 400⟩ : Vec)) = (⟨450, 400⟩ : Vec) ∧
        acceptable [] 15 (⟨450, 400⟩ : Vec) = true ∧
        (∀ q ∈ ([] : List Sphere),
          ((15 : ℚ) + q.radius) ^ 2
            ≤ sqDist (createPos [] 15 (fun _ => (⟨450, 400⟩ : Vec))) q.pos) ∧
        (15 : ℚ) ≤ (createPos [] 15 (fun _ => (⟨450, 400⟩ : Vec))).x ∧
        (createPos [] 15 (fun _ => (⟨450, 400⟩ : Vec))).x ≤ 900 - 15 ∧
        (15 : ℚ) ≤ (createPos [] 15 (fun _ => (⟨450, 400⟩ : Vec))).y ∧
        (createPos [] 15 (fun _ => (⟨450, 400⟩ : Vec))).y ≤ 800 - 15) ∨
      (createPos [] 15 (fun _ => (⟨450, 400⟩ : Vec)) = Vec.zero ∧
        ∀ i, i < 100 → acceptable [] 15 (⟨450, 400⟩ : Vec) = false) :=
  (c6_spawn_placement [] 15 900 800 (fun _ => (⟨450, 400⟩ : Vec))
    (by norm_num) (fun q hq => absurd hq (List.not_mem_nil q))
    (fun i => by norm_num)).1

/-! ## Accessor lemmas -/

theorem setLig_proteins (s : SimState) (r : LigRef) (l : Ligand) :
    (s.setLig r l).proteins = s.proteins := by
  unfold SimState.setLig
  cases r.species <;> rfl

theorem setLig_params (s : SimState) (r : LigRef) (l : Ligand) :
    (s.setLig r l).params = s.params := by
  unfold SimState.setLig
  cases r.species <;> rfl

theorem setLig_paused (s : SimState) (r : LigRef) (l : Ligand) :
    (s.setLig r l).paused = s.paused := by
  unfold SimState.setLig
  cases r.species <;> rfl

theorem setLig_length_ligands (s : SimState) (r : LigRef) (l : Ligand) :
    (s.setLig r l).ligands.length = s.ligands.length := by
  unfold SimState.setLig
  cases r.species <;> simp

theorem setLig_length_competitors (s : SimState) (r : LigRef) (l : Ligand) :
    (s.setLig r l).competitors.length = s.competitors.length := by
  unfold SimState.setLig
  cases r.species <;> simp

theorem getLig_set_proteins (s : SimState) (ps : List Protein) (r : LigRef) :
    SimState.getLig { s with proteins := ps } r = s.getLig r := rfl

theorem getLig_some_lt (s : SimState) (r : LigRef) (lig : Ligand)
    (h : s.getLig r = some lig) :
    match r.species with
    | Species.normal => r.idx < s.ligands.length
    | Species.competitor => r.idx < s.competitors.length := by
  rcases r with ⟨sp, i⟩
  cases sp <;> unfold SimState.getLig at h <;>
    exact (List.getElem?_eq_some.1 h).1

theorem getLig_setLig_self (s : SimState) (r : LigRef) (lig l : Ligand)
    (h : s.getLig r = some lig) :
    (s.setLig r l).getLig r = some l := by
  rcases r with ⟨sp, i⟩
  cases sp <;> simp only [SimState.getLig, SimState.setLig] at h ⊢ <;>
    exact List.getElem?_set_self (List.getElem?_eq_some.1 h).1

theorem getLig_setLig_ne (s : SimState) (r r' : LigRef) (l : Ligand)
    (h : r' ≠ r) :
    (s.setLig r l).getLig r' = s.getLig r' := by
  rcases r with ⟨sp, i⟩
  rcases r' with ⟨sp', i'⟩
  cases sp <;> cases sp' <;> simp only [SimState.getLig, SimState.setLig]
  · refine List.getElem?_set_ne fun hii => ?_
    exact h (by rw [hii])
  · refine List.getElem?_set_ne fun hii => ?_
    exact h (by rw [hii])

/-! ## C5: the unbind operation -/

/-- C5: calling `unbind` on a bound ligand (with consistent references)
clears the protein's slot, clears the ligand's binding state and resets its
color, repositions the ligand at the former protein's position plus
`(protein.radius + ligand.radius + 2) · dir` for the unit direction `dir`
(the code's normalized protein→ligand vector, or a random unit vector when
that vector is zero), sets the velocity to `kick · dir` along the same
direction, and so leaves the ligand at squared distance exactly
`(protein.radius + ligand.radius + 2)²` from the former protein — at least
`(protein.radius + ligand.radius)²`, i.e. distance at least the sum of the
radii. -/
theorem c5_unbind_released (s : SimState) (r : LigRef) (lig : Ligand)
    (pi : ℕ) (pro : Protein) (dir : Vec) (kick : ℚ)
    (hlig : s.getLig r = some lig) (hb : lig.bound_to = some pi)
    (hpro : s.proteins[pi]? = some pro) (hslot : pro.bound_ligands = [r])
    (hdir : dir.x ^ 2 + dir.y ^ 2 = 1) :
    (unbind s r dir kick).proteins[pi]?
        = some { pro with bound_ligands := [] } ∧
    (unbind s r dir kick).getLig r = some { lig with
        pos := Vec.add pro.pos (Vec.smul (proteinRadius + ligandRadius + 2) dir),
        vel := Vec.smul kick dir,
        is_bound := false, bound_to := none,
        color := initialColor r.species } ∧
    sqDist (Vec.add pro.pos (Vec.smul (proteinRadius + ligandRadius + 2) dir))
        pro.pos = (proteinRadius + ligandRadius + 2) ^ 2 ∧
    (proteinRadius + ligandRadius) ^ 2
      ≤ sqDist (Vec.add pro.pos (Vec.smul (proteinRadius + ligandRadius + 2) dir))
          pro.pos := by
  have hsq : sqDist
      (Vec.add pro.pos (Vec.smul (proteinRadius + ligandRadius + 2) dir)) pro.pos
      = (proteinRadius + ligandRadius + 2) ^ 2 := by
    rw [sqDist_add_smul, hdir, mul_one]
  refine ⟨?_, ?_, hsq, ?_⟩
  · simp only [unbind, hlig, hb, hpro]
    rw [setLig_proteins]
    show (updateAt s.proteins pi _)[pi]? = _
    rw [getElem?_updateAt, if_pos rfl, hpro]
    simp [hslot]
  · simp only [unbind, hlig, hb, hpro]
    exact getLig_setLig_self _ r lig _ hlig
  · rw [hsq]
    unfold proteinRadius ligandRadius
    norm_num

/-- A concrete one-protein, one-bound-ligand state for witnesses. -/
def demoBoundState : SimState :=
  { params := defaultParams, paused := false,
    proteins := [⟨⟨100, 100⟩, Vec.zero, PROTEIN_COLOR, [⟨Species.normal, 0⟩]⟩],
    ligands := [⟨⟨100, 100⟩, Vec.zero, BOUND_LIGAND_COLOR, true, some 0⟩],
    competitors := [], time_steps := [], bound_ligands_data := [],
    bound_competitor_data := [] }

/-- Witness for C5 at `demoBoundState`, direction `(1, 0)`, kick `1`. -/
theorem c5_unbind_released_witness :
    demoBoundState.getLig ⟨Species.normal, 0⟩
        = some ⟨⟨100, 100⟩, Vec.zero, BOUND_LIGAND_COLOR, true, some 0⟩ ∧
    ((1 : ℚ) ^ 2 + (0 : ℚ) ^ 2 = 1) ∧
    ((unbind demoBoundState ⟨Species.normal, 0⟩ ⟨1, 0⟩ 1).proteins[0]?
        = some { pos := ⟨100, 100⟩, vel := Vec.zero, color := PROTEIN_COLOR,
                 bound_ligands := ([] : List LigRef) } ∧
      (unbind demoBoundState ⟨Species.normal, 0⟩ ⟨1, 0⟩ 1).getLig
          ⟨Species.normal, 0⟩
        = some { pos := Vec.add ⟨100, 100⟩
                   (Vec.smul (proteinRadius + ligandRadius + 2) ⟨1, 0⟩),
                 vel := Vec.smul 1 ⟨1, 0⟩, color := initialColor Species.normal,
                 is_bound := false, bound_to := none } ∧
      sqDist (Vec.add ⟨100, 100⟩
          (Vec.smul (proteinRadius + ligandRadius + 2) ⟨1, 0⟩)) ⟨100, 100⟩
        = (proteinRadius + ligandRadius + 2) ^ 2 ∧
      (proteinRadius + ligandRadius) ^ 2
        ≤ sqDist (Vec.add ⟨100, 100⟩
            (Vec.smul (proteinRadius + ligandRadius + 2) ⟨1, 0⟩)) ⟨100, 100⟩) := by
  refine ⟨rfl, by norm_num, ?_⟩
  exact c5_unbind_released demoBoundState ⟨Species.normal, 0⟩
    ⟨⟨100, 100⟩, Vec.zero, BOUND_LIGAND_COLOR, true, some 0⟩ 0
    ⟨⟨100, 100⟩, Vec.zero, PROTEIN_COLOR, [⟨Species.normal, 0⟩]⟩ ⟨1, 0⟩ 1
    rfl rfl rfl rfl (by norm_num)

/-! ## C3: the binding scan -/

theorem bindsAt_iff (proteins : List Protein) (ligpos : Vec) (brad : ℚ)
    (draw : ℕ → Bool) (i : ℕ) :
    bindsAt proteins ligpos brad draw i = true
      ↔ ∃ p, proteins[i]? = some p ∧ p.bound_ligands = [] ∧
          distLt ligpos p.pos (proteinRadius + brad) = true ∧ draw i = true := by
  unfold bindsAt
  cases hp : proteins[i]? with
  | none =>
      simp
  | some p =>
      simp only [Bool.and_eq_true, List.isEmpty_iff]
      constructor
      · rintro ⟨⟨hemp, hdist⟩, hdraw⟩
        exact ⟨p, rfl, hemp, hdist, hdraw⟩
      · rintro ⟨p', hp', hemp, hdist, hdraw⟩
        cases hp'
        exact ⟨⟨hemp, hdist⟩, hdraw⟩

/-- C3 (amended): in each tick a free ligand scans the proteins in index
order; a protein is skipped — without consuming a probability draw — when
its slot is occupied or it is out of range; a draw is made for every
unoccupied in-range protein in order until one succeeds (a failed draw
moves the scan to the next protein, it does not end the scan); the ligand
binds the first protein whose draw succeeds: its bound reference is set,
the protein's slot becomes occupied by exactly this ligand, every other
protein and ligand is untouched, and scanning stops — so a ligand binds at
most one protein per tick and ties between in-range proteins are broken by
iteration order, never by distance. -/
theorem c3_binding_scan (s : SimState) (r : LigRef) (lig : Ligand)
    (draw : ℕ → Bool) (hlig : s.getLig r = some lig)
    (hfree : lig.is_bound = false) :
    (firstBindable s.proteins lig.pos s.params.binding_radius draw = none ∧
        bindLig s r draw = s) ∨
    (∃ i pro,
        firstBindable s.proteins lig.pos s.params.binding_radius draw = some i ∧
        s.proteins[i]? = some pro ∧ pro.bound_ligands = [] ∧
        distLt lig.pos pro.pos (proteinRadius + s.params.binding_radius) = true ∧
        draw i = true ∧
        (∀ j, j < i →
          bindsAt s.proteins lig.pos s.params.binding_radius draw j = false) ∧
        (bindLig s r draw).proteins[i]? = some { pro with bound_ligands := [r] } ∧
        (∀ j, j ≠ i → (bindLig s r draw).proteins[j]? = s.proteins[j]?) ∧
        (bindLig s r draw).getLig r
          = some { lig with
                   is_bound := true, bound_to := some i,
                   color := BOUND_LIGAND_COLOR } ∧
        (∀ r', r' ≠ r → (bindLig s r draw).getLig r' = s.getLig r')) := by
  cases hfb : firstBindable s.proteins lig.pos s.params.binding_radius draw with
  | none =>
      left
      refine ⟨rfl, ?_⟩
      simp only [bindLig, hlig, hfb]
  | some i =>
      right
      have hall : bindsAt s.proteins lig.pos s.params.binding_radius draw i = true
          ∧ i ∈ List.range s.proteins.length
          ∧ ∀ j < i,
              (!bindsAt s.proteins lig.pos s.params.binding_radius draw j) = true := by
        have := List.find?_range_eq_some.1 hfb
        simpa using this
      obtain ⟨pro, hpro, hemp, hdist, hdraw⟩ :=
        (bindsAt_iff s.proteins lig.pos s.params.binding_radius draw i).1 hall.1
      refine ⟨i, pro, rfl, hpro, hemp, hdist, hdraw, ?_, ?_, ?_, ?_, ?_⟩
      · intro j hji
        have := hall.2.2 j hji
        exact Bool.eq_false_iff.2 (by simpa using this)
      · simp only [bindLig, hlig, hfb]
        rw [setLig_proteins]
        show (updateAt s.proteins i _)[i]? = _
        rw [getElem?_updateAt, if_pos rfl, hpro]
        simp [hemp]
      · intro j hji
        simp only [bindLig, hlig, hfb]
        rw [setLig_proteins]
        show (updateAt s.proteins i _)[j]? = _
        rw [getElem?_updateAt, if_neg (fun hij => hji hij.symm)]
      · simp only [bindLig, hlig, hfb]
        exact getLig_setLig_self _ r lig _ hlig
      · intro r' hr'
        simp only [bindLig, hlig, hfb]
        rw [getLig_setLig_ne _ r r' _ hr']
        rfl

/-- Two empty in-range proteins and one free ligand between them, for the
C3 scan theorems. -/
def scanDemoState : SimState :=
  { params := defaultParams, paused := false,
    proteins := [⟨⟨100, 100⟩, Vec.zero, PROTEIN_COLOR, []⟩,
                 ⟨⟨110, 100⟩, Vec.zero, PROTEIN_COLOR, []⟩],
    ligands := [⟨⟨105, 100⟩, Vec.zero, NORMAL_LIGAND_COLOR, false, none⟩],
    competitors := [], time_steps := [], bound_ligands_data := [],
    bound_competitor_data := [] }

/-- C3 counterexample: both proteins are unoccupied and within
`protein.radius + binding_radius` of the ligand, so protein 0 is the first
unoccupied in-range protein in iteration order; with the draw for protein 0
failing and the draw for protein 1 succeeding, the ligand ends the tick
bound to protein 1 — the code made a second draw after the first failed,
and the first eligible protein did not win. -/
theorem c3_counterexample :
    ((scanDemoState.proteins[0]?).map (fun p => p.bound_ligands) = some [] ∧
      distLt ⟨105, 100⟩ ⟨100, 100⟩
        (proteinRadius + scanDemoState.params.binding_radius) = true) ∧
    ((bindLig scanDemoState ⟨Species.normal, 0⟩
        (fun i => decide (i = 1))).getLig ⟨Species.normal, 0⟩).map
          (fun l => l.bound_to) = some (some 1) := by
  have hd0 : distLt (⟨105, 100⟩ : Vec) (⟨100, 100⟩ : Vec) (25 : ℚ) = true := by
    rw [distLt_iff]
    refine ⟨by norm_num, ?_⟩
    unfold sqDist
    norm_num
  have hd1 : distLt (⟨105, 100⟩ : Vec) (⟨110, 100⟩ : Vec) (25 : ℚ) = true := by
    rw [distLt_iff]
    refine ⟨by norm_num, ?_⟩
    unfold sqDist
    norm_num
  have hrad : proteinRadius + scanDemoState.params.binding_radius = (25 : ℚ) := by
    unfold proteinRadius scanDemoState defaultParams
    norm_num
  have h0 : bindsAt scanDemoState.proteins ⟨105, 100⟩
      scanDemoState.params.binding_radius (fun i => decide (i = 1)) 0 = false := by
    unfold bindsAt
    simp [scanDemoState]
  have h1 : bindsAt scanDemoState.proteins ⟨105, 100⟩
      scanDemoState.params.binding_radius (fun i => decide (i = 1)) 1 = true := by
    rw [bindsAt_iff]
    refine ⟨⟨⟨110, 100⟩, Vec.zero, PROTEIN_COLOR, []⟩, rfl, rfl, ?_, by simp⟩
    rw [hrad]
    exact hd1
  have hfb : firstBindable scanDemoState.proteins ⟨105, 100⟩
      scanDemoState.params.binding_radius (fun i => decide (i = 1)) = some 1 := by
    unfold firstBindable
    have hlen : scanDemoState.proteins.length = 2 := rfl
    rw [hlen]
    have hr2 : List.range 2 = [0, 1] := rfl
    rw [hr2]
    simp only [List.find?]
    rw [h0, h1]
  refine ⟨⟨rfl, ?_⟩, ?_⟩
  · rw [hrad]
    exact hd0
  · have hlig : scanDemoState.getLig ⟨Species.normal, 0⟩
        = some ⟨⟨105, 100⟩, Vec.zero, NORMAL_LIGAND_COLOR, false, none⟩ := rfl
    simp only [bindLig, hlig]
    have hfb' : firstBindable scanDemoState.proteins
        (⟨105, 100⟩ : Vec) scanDemoState.params.binding_radius
        (fun i => decide (i = 1)) = some 1 := hfb
    rw [hfb']
    rfl

/-- Witness for the amended C3 at `scanDemoState` with an all-true draw:
the scan stops at protein 0. -/
theorem c3_binding_scan_witness :
    scanDemoState.getLig ⟨Species.normal, 0⟩
        = some ⟨⟨105, 100⟩, Vec.zero, NORMAL_LIGAND_COLOR, false, none⟩ ∧
    ((firstBindable scanDemoState.proteins
          (⟨105, 100⟩ : Vec) scanDemoState.params.binding_radius
          (fun _ => true) = none ∧
        bindLig scanDemoState ⟨Species.normal, 0⟩ (fun _ => true)
          = scanDemoState) ∨
      (∃ i pro,
        firstBindable scanDemoState.proteins (⟨105, 100⟩ : Vec)
            scanDemoState.params.binding_radius (fun _ => true) = some i ∧
        scanDemoState.proteins[i]? = some pro ∧ pro.bound_ligands = [] ∧
        distLt (⟨105, 100⟩ : Vec) pro.pos
            (proteinRadius + scanDemoState.params.binding_radius) = true ∧
        (fun _ : ℕ => true) i = true ∧
        (∀ j, j < i →
          bindsAt scanDemoState.proteins (⟨105, 100⟩ : Vec)
            scanDemoState.params.binding_radius (fun _ => true) j = false) ∧
        (bindLig scanDemoState ⟨Species.normal, 0⟩
            (fun _ => true)).proteins[i]?
          = some { pro with bound_ligands := [⟨Species.normal, 0⟩] } ∧
        (∀ j, j ≠ i →
          (bindLig scanDemoState ⟨Species.normal, 0⟩
            (fun _ => true)).proteins[j]? = scanDemoState.proteins[j]?) ∧
        (bindLig scanDemoState ⟨Species.normal, 0⟩ (fun _ => true)).getLig
            ⟨Species.normal, 0⟩
          = some { (⟨⟨105, 100⟩, Vec.zero, NORMAL_LIGAND_COLOR, false, none⟩ : Ligand)
              with is_bound := true, bound_to := some i,
                   color := BOUND_LIGAND_COLOR } ∧
        (∀ r', r' ≠ (⟨Species.normal, 0⟩ : LigRef) →
          (bindLig scanDemoState ⟨Species.normal, 0⟩ (fun _ => true)).getLig r'
            = scanDemoState.getLig r'))) := by
  refine ⟨rfl, ?_⟩
  exact c3_binding_scan scanDemoState ⟨Species.normal, 0⟩
    ⟨⟨105, 100⟩, Vec.zero, NORMAL_LIGAND_COLOR, false, none⟩
    (fun _ => true) rfl rfl

/-! ## Shape lemmas for the step components -/

theorem length_mapIdxFrom {α β : Type} (f : ℕ → α → β) (k : ℕ) (l : List α) :
    (mapIdxFrom f k l).length = l.length := by
  induction l generalizing k with
  | nil => rfl
  | cons a as ih => simp [mapIdxFrom, ih]

theorem getElem?_mapIdxFrom {α β : Type} (f : ℕ → α → β) (k : ℕ) (l : List α)
    (j : ℕ) :
    (mapIdxFrom f k l)[j]? = (l[j]?).map (f (k + j)) := by
  induction l generalizing k j with
  | nil => simp [mapIdxFrom]
  | cons a as ih =>
      cases j with
      | zero => simp [mapIdxFrom]
      | succ j' =>
          simp only [mapIdxFrom, List.getElem?_cons_succ, ih (k + 1) j']
          have : k + 1 + j' = k + (j' + 1) := by omega
          rw [this]

/-- The position entry of the protein at index `j`. -/
def protPos (ps : List Protein) (j : ℕ) : Option Vec :=
  (ps[j]?).map (fun p => p.pos)

theorem protPos_updateAt (ps : List Protein) (i j : ℕ) (f : Protein → Protein)
    (hf : ∀ p, (f p).pos = p.pos) :
    protPos (updateAt ps i f) j = protPos ps j := by
  unfold protPos
  rw [getElem?_updateAt]
  by_cases hij : i = j
  · subst hij
    simp only [if_pos rfl]
    cases ps[i]? with
    | none => rfl
    | some p => simp [hf]
  · rw [if_neg hij]

theorem protPos_setLig (s : SimState) (r : LigRef) (l : Ligand) (j : ℕ) :
    protPos (s.setLig r l).proteins j = protPos s.proteins j := by
  unfold protPos
  rw [setLig_proteins]

theorem unbind_params (s : SimState) (r : LigRef) (dir : Vec) (kick : ℚ) :
    (unbind s r dir kick).params = s.params := by
  unfold unbind
  split
  · rfl
  · split
    · exact setLig_params _ _ _
    · split
      · exact setLig_params _ _ _
      · exact setLig_params _ _ _

theorem unbind_paused (s : SimState) (r : LigRef) (dir : Vec) (kick : ℚ) :
    (unbind s r dir kick).paused = s.paused := by
  unfold unbind
  split
  · rfl
  · split
    · exact setLig_paused _ _ _
    · split
      · exact setLig_paused _ _ _
      · exact setLig_paused _ _ _

theorem unbind_protPos (s : SimState) (r : LigRef) (dir : Vec) (kick : ℚ)
    (j : ℕ) :
    protPos (unbind s r dir kick).proteins j = protPos s.proteins j := by
  unfold unbind
  split
  · rfl
  · split
    · exact protPos_setLig _ _ _ _
    · split
      · exact protPos_setLig _ _ _ _
      · rw [protPos_setLig]
        show protPos (updateAt s.proteins _ _) j = protPos s.proteins j
        exact protPos_updateAt s.proteins _ _ _ (fun p => rfl)

theorem unbind_proteins_length (s : SimState) (r : LigRef) (dir : Vec)
    (kick : ℚ) :
    (unbind s r dir kick).proteins.length = s.proteins.length := by
  unfold unbind
  split
  · rfl
  · split
    · rw [setLig_proteins]
    · split
      · rw [setLig_proteins]
      · rw [setLig_proteins]
        show (updateAt s.proteins _ _).length = s.proteins.length
        exact length_updateAt _ _ _

theorem unbind_getLig_ne (s : SimState) (r r' : LigRef) (dir : Vec) (kick : ℚ)
    (h : r' ≠ r) :
    (unbind s r dir kick).getLig r' = s.getLig r' := by
  unfold unbind
  split
  · rfl
  · split
    · exact getLig_setLig_ne _ _ _ _ h
    · split
      · exact getLig_setLig_ne _ _ _ _ h
      · rw [getLig_setLig_ne _ _ _ _ h]
        rfl

theorem unbind_ligands_length (s : SimState) (r : LigRef) (dir : Vec)
    (kick : ℚ) :
    (unbind s r dir kick).ligands.length = s.ligands.length ∧
      (unbind s r dir kick).competitors.length = s.competitors.length := by
  unfold unbind
  split
  · exact ⟨rfl, rfl⟩
  · split
    · exact ⟨setLig_length_ligands _ _ _, setLig_length_competitors _ _ _⟩
    · split
      · exact ⟨setLig_length_ligands _ _ _, setLig_length_competitors _ _ _⟩
      · exact ⟨setLig_length_ligands _ _ _, setLig_length_competitors _ _ _⟩

theorem bindLig_params (s : SimState) (r : LigRef) (draw : ℕ → Bool) :
    (bindLig s r draw).params = s.params := by
  unfold bindLig
  split
  · rfl
  · split
    · rfl
    · exact setLig_params _ _ _

theorem bindLig_protPos (s : SimState) (r : LigRef) (draw : ℕ → Bool) (j : ℕ) :
    protPos (bindLig s r draw).proteins j = protPos s.proteins j := by
  unfold bindLig
  split
  · rfl
  · split
    · rfl
    · rw [protPos_setLig]
      show protPos (updateAt s.proteins _ _) j = protPos s.proteins j
      exact protPos_updateAt s.proteins _ _ _ (fun p => rfl)

theorem bindLig_proteins_length (s : SimState) (r : LigRef) (draw : ℕ → Bool) :
    (bindLig s r draw).proteins.length = s.proteins.length := by
  unfold bindLig
  split
  · rfl
  · split
    · rfl
    · rw [setLig_proteins]
      show (updateAt s.proteins _ _).length = s.proteins.length
      exact length_updateAt _ _ _

theorem bindLig_getLig_ne (s : SimState) (r r' : LigRef) (draw : ℕ → Bool)
    (h : r' ≠ r) :
    (bindLig s r draw).getLig r' = s.getLig r' := by
  unfold bindLig
  split
  · rfl
  · split
    · rfl
    · rw [getLig_setLig_ne _ _ _ _ h]
      rfl

theorem snapLig_params (s : SimState) (r : LigRef) :
    (snapLig s r).params = s.params := by
  unfold snapLig
  split
  · rfl
  · split
    · split
      · exact setLig_params _ _ _
      · rfl
    · rfl

theorem snapLig_protPos (s : SimState) (r : LigRef) (j : ℕ) :
    protPos (snapLig s r).proteins j = protPos s.proteins j := by
  unfold snapLig
  split
  · rfl
  · split
    · split
      · exact protPos_setLig _ _ _ _
      · rfl
    · rfl

theorem snapLig_proteins (s : SimState) (r : LigRef) :
    (snapLig s r).proteins = s.proteins := by
  unfold snapLig
  split
  · rfl
  · split
    · split
      · exact setLig_proteins _ _ _
      · rfl
    · rfl

theorem snapLig_getLig_ne (s : SimState) (r r' : LigRef) (h : r' ≠ r) :
    (snapLig s r).getLig r' = s.getLig r' := by
  unfold snapLig
  split
  · rfl
  · split
    · split
      · exact getLig_setLig_ne _ _ _ _ h
      · rfl
    · rfl

theorem snapLig_ligands_length (s : SimState) (r : LigRef) :
    (snapLig s r).ligands.length = s.ligands.length ∧
      (snapLig s r).competitors.length = s.competitors.length := by
  unfold snapLig
  split
  · exact ⟨rfl, rfl⟩
  · split
    · split
      · exact ⟨setLig_length_ligands _ _ _, setLig_length_competitors _ _ _⟩
      · exact ⟨rfl, rfl⟩
    · exact ⟨rfl, rfl⟩

theorem processLig_params (s : SimState) (r : LigRef) (b : Bool)
    (onD : ℕ → Bool) (dir : Vec) (kick : ℚ) :
    (processLig s r b onD dir kick).params = s.params := by
  unfold processLig
  split
  · rfl
  · split
    · split
      · rw [unbind_params, snapLig_params]
      · exact snapLig_params _ _
    · exact bindLig_params _ _ _

theorem processLig_protPos (s : SimState) (r : LigRef) (b : Bool)
    (onD : ℕ → Bool) (dir : Vec) (kick : ℚ) (j : ℕ) :
    protPos (processLig s r b onD dir kick).proteins j = protPos s.proteins j := by
  unfold processLig
  split
  · rfl
  · split
    · split
      · rw [unbind_protPos, snapLig_protPos]
      · exact snapLig_protPos _ _ _
    · exact bindLig_protPos _ _ _ _

theorem processLig_proteins_length (s : SimState) (r : LigRef) (b : Bool)
    (onD : ℕ → Bool) (dir : Vec) (kick : ℚ) :
    (processLig s r b onD dir kick).proteins.length = s.proteins.length := by
  unfold processLig
  split
  · rfl
  · split
    · split
      · rw [unbind_proteins_length, snapLig_proteins]
      · rw [snapLig_proteins]
    · exact bindLig_proteins_length _ _ _

theorem processLig_getLig_ne (s : SimState) (r r' : LigRef) (b : Bool)
    (onD : ℕ → Bool) (dir : Vec) (kick : ℚ) (h : r' ≠ r) :
    (processLig s r b onD dir kick).getLig r' = s.getLig r' := by
  unfold processLig
  split
  · rfl
  · split
    · split
      · rw [unbind_getLig_ne _ _ _ _ _ h, snapLig_getLig_ne _ _ _ h]
      · exact snapLig_getLig_ne _ _ _ h
    · exact bindLig_getLig_ne _ _ _ _ h

/-! ## Invariant helper lemmas -/

theorem slotOK_elim (s : SimState) (i : ℕ) (p : Protein) (h : slotOK s i p)
    (r : LigRef) (hr : r ∈ p.bound_ligands) :
    ∃ lig, s.getLig r = some lig ∧ lig.bound_to = some i ∧
      lig.is_bound = true := by
  have h2 := h.2 r hr
  cases hg : s.getLig r with
  | none =>
      rw [hg] at h2
      exact h2.elim
  | some lig =>
      rw [hg] at h2
      exact ⟨lig, rfl, h2.1, h2.2⟩

theorem slotOK_intro (s : SimState) (i : ℕ) (p : Protein)
    (hlen : p.bound_ligands.length ≤ 1)
    (h : ∀ r ∈ p.bound_ligands, ∃ lig, s.getLig r = some lig ∧
        lig.bound_to = some i ∧ lig.is_bound = true) :
    slotOK s i p := by
  refine ⟨hlen, fun r hr => ?_⟩
  obtain ⟨lig, hg, h1, h2⟩ := h r hr
  rw [hg]
  exact ⟨h1, h2⟩

theorem ligOK_bound_elim (s : SimState) (r : LigRef) (lig : Ligand)
    (h : ligOK s r lig) (hb : lig.is_bound = true) :
    ∃ pi pro, lig.bound_to = some pi ∧ s.proteins[pi]? = some pro ∧
      r ∈ pro.bound_ligands := by
  unfold ligOK at h
  rw [hb] at h
  simp only [if_true] at h
  cases hbt : lig.bound_to with
  | none =>
      rw [hbt] at h
      exact h.elim
  | some pi =>
      rw [hbt] at h
      have h' : (match s.proteins[pi]? with
          | some p => r ∈ p.bound_ligands
          | none => False) := h
      cases hp : s.proteins[pi]? with
      | none =>
          rw [hp] at h'
          exact h'.elim
      | some pro =>
          rw [hp] at h'
          exact ⟨pi, pro, rfl, hp, h'⟩

theorem ligOK_free_elim (s : SimState) (r : LigRef) (lig : Ligand)
    (h : ligOK s r lig) (hb : lig.is_bound = false) :
    lig.bound_to = none := by
  unfold ligOK at h
  rw [hb] at h
  simpa using h

theorem ligOK_bound_intro (s : SimState) (r : LigRef) (lig : Ligand)
    (pi : ℕ) (pro : Protein) (hb : lig.is_bound = true)
    (hbt : lig.bound_to = some pi) (hp : s.proteins[pi]? = some pro)
    (hmem : r ∈ pro.bound_ligands) : ligOK s r lig := by
  unfold ligOK
  rw [hb]
  simp only [if_true]
  rw [hbt]
  show (match s.proteins[pi]? with
    | some p => r ∈ p.bound_ligands
    | none => False)
  rw [hp]
  exact hmem

theorem ligOK_free_intro (s : SimState) (r : LigRef) (lig : Ligand)
    (hb : lig.is_bound = false) (hbt : lig.bound_to = none) :
    ligOK s r lig := by
  unfold ligOK
  rw [hb]
  simpa using hbt

theorem ligOK_proteins_eq (s s' : SimState) (r : LigRef) (lig : Ligand)
    (hps : s'.proteins = s.proteins) (h : ligOK s r lig) : ligOK s' r lig := by
  unfold ligOK at h ⊢
  rw [hps]
  exact h

theorem slotOK_getLig_eq (s s' : SimState) (i : ℕ) (p : Protein)
    (hg : ∀ r ∈ p.bound_ligands, s'.getLig r = s.getLig r)
    (h : slotOK s i p) : slotOK s' i p := by
  refine ⟨h.1, fun r hr => ?_⟩
  rw [hg r hr]
  exact h.2 r hr

/-- Under the invariant, a bound ligand's protein slot is exactly `[r]`. -/
theorem inv_bound_slot (s : SimState) (h : Inv s) (r : LigRef) (lig : Ligand)
    (hget : s.getLig r = some lig) (hb : lig.is_bound = true) :
    ∃ pi pro, lig.bound_to = some pi ∧ s.proteins[pi]? = some pro ∧
      pro.bound_ligands = [r] := by
  obtain ⟨pi, pro, hbt, hp, hmem⟩ :=
    ligOK_bound_elim s r lig (h.2 r lig hget) hb
  have hslot := h.1 pi pro hp
  refine ⟨pi, pro, hbt, hp, ?_⟩
  cases hsl : pro.bound_ligands with
  | nil =>
      rw [hsl] at hmem
      exact absurd hmem (List.not_mem_nil r)
  | cons a t =>
      cases t with
      | nil =>
          rw [hsl] at hmem
          have ha : r = a := by simpa using hmem
          rw [ha]
      | cons b t' =>
          have hl := hslot.1
          rw [hsl] at hl
          simp at hl

/-- Under the invariant, a free ligand's reference sits in no protein's
slot. -/
theorem inv_free_not_in_slot (s : SimState) (h : Inv s) (r : LigRef)
    (lig : Ligand) (hget : s.getLig r = some lig)
    (hfree : lig.is_bound = false) :
    ∀ (i : ℕ) (p : Protein), s.proteins[i]? = some p → r ∉ p.bound_ligands := by
  intro i p hp hmem
  obtain ⟨lig', hg', _, hb'⟩ := slotOK_elim s i p (h.1 i p hp) r hmem
  have he : lig = lig' := by
    have := hget.symm.trans hg'
    injection this
  rw [← he, hfree] at hb'
  exact Bool.noConfusion hb'

/-! ## Invariant preservation: setLig forms -/

theorem inv_intro (s : SimState)
    (h1 : ∀ (i : ℕ) (p : Protein), s.proteins[i]? = some p → slotOK s i p)
    (h2 : ∀ (r : LigRef) (lig : Ligand), s.getLig r = some lig → ligOK s r lig) :
    Inv s := ⟨h1, h2⟩

/-- The state with the slot of protein `pi` cleared of reference `r`
(the `bound_ligands.remove` part of `unbind`). -/
def eraseSlotAt (s : SimState) (pi : ℕ) (r : LigRef) : SimState :=
  let f : Protein → Protein :=
    fun q => { q with bound_ligands := q.bound_ligands.erase r }
  { s with proteins := updateAt s.proteins pi f }

theorem inv_setLig_free (s : SimState) (r : LigRef) (lig lig' : Ligand)
    (h : Inv s) (hget : s.getLig r = some lig)
    (hnotin : ∀ (i : ℕ) (p : Protein),
      s.proteins[i]? = some p → r ∉ p.bound_ligands)
    (hfree' : lig'.is_bound = false) (hbt' : lig'.bound_to = none) :
    Inv (s.setLig r lig') := by
  refine inv_intro _ ?_ ?_
  · intro i p hp
    rw [setLig_proteins] at hp
    refine slotOK_getLig_eq s _ i p ?_ (h.1 i p hp)
    intro r' hr'
    have hne : r' ≠ r := fun e => hnotin i p hp (e ▸ hr')
    exact getLig_setLig_ne s r r' lig' hne
  · intro r' lig'' hget'
    by_cases hrr : r' = r
    · subst hrr
      rw [getLig_setLig_self s r' lig lig' hget] at hget'
      injection hget' with he
      exact ligOK_free_intro _ r' lig'' (he ▸ hfree') (he ▸ hbt')
    · rw [getLig_setLig_ne s r r' lig' hrr] at hget'
      exact ligOK_proteins_eq s _ r' lig'' (setLig_proteins s r lig')
        (h.2 r' lig'' hget')

theorem inv_setLig_samebinding (s : SimState) (r : LigRef) (lig lig' : Ligand)
    (h : Inv s) (hget : s.getLig r = some lig)
    (hb : lig'.is_bound = lig.is_bound) (hbt : lig'.bound_to = lig.bound_to) :
    Inv (s.setLig r lig') := by
  refine inv_intro _ ?_ ?_
  · intro i p hp
    rw [setLig_proteins] at hp
    have hs := h.1 i p hp
    refine slotOK_intro _ i p hs.1 fun r' hr' => ?_
    obtain ⟨l0, hg0, h1, h2⟩ := slotOK_elim s i p hs r' hr'
    by_cases hrr : r' = r
    · subst hrr
      have he : lig = l0 := by
        have := hget.symm.trans hg0
        injection this
      refine ⟨lig', getLig_setLig_self s r' lig lig' hget, ?_, ?_⟩
      · rw [hbt, he]
        exact h1
      · rw [hb, he]
        exact h2
    · refine ⟨l0, ?_, h1, h2⟩
      rw [getLig_setLig_ne s r r' lig' hrr]
      exact hg0
  · intro r' lig'' hget'
    by_cases hrr : r' = r
    · subst hrr
      rw [getLig_setLig_self s r' lig lig' hget] at hget'
      injection hget' with he
      have hOK := h.2 r' lig hget
      unfold ligOK at hOK ⊢
      rw [setLig_proteins, ← he, hb, hbt]
      exact hOK
    · rw [getLig_setLig_ne s r r' lig' hrr] at hget'
      exact ligOK_proteins_eq s _ r' lig'' (setLig_proteins s r lig')
        (h.2 r' lig'' hget')

theorem inv_snapLig (s : SimState) (r : LigRef) (h : Inv s) :
    Inv (snapLig s r) := by
  unfold snapLig
  split
  · exact h
  · next lig heq =>
    split
    · split
      · next pro hp => exact inv_setLig_samebinding s r lig _ h heq rfl rfl
      · exact h
    · exact h

/-! ## Invariant preservation: unbind -/

theorem inv_unbind_core (s : SimState) (r : LigRef) (lig lig' : Ligand)
    (pi : ℕ) (pro : Protein) (h : Inv s) (hget : s.getLig r = some lig)
    (hp : s.proteins[pi]? = some pro) (hslot : pro.bound_ligands = [r])
    (hfree' : lig'.is_bound = false) (hbt' : lig'.bound_to = none) :
    Inv (SimState.setLig (eraseSlotAt s pi r) r lig') := by
  have hgetP : (eraseSlotAt s pi r).getLig r = some lig := hget
  refine inv_intro _ ?_ ?_
  · intro i p hpI
    rw [setLig_proteins] at hpI
    have hpI' : (updateAt s.proteins pi
        (fun q => { q with bound_ligands := q.bound_ligands.erase r }))[i]?
        = some p := hpI
    rw [getElem?_updateAt] at hpI'
    by_cases hip : pi = i
    · subst hip
      rw [if_pos rfl, hp] at hpI'
      injection hpI' with hpe
      have hempty : p.bound_ligands = [] := by
        rw [← hpe]
        show pro.bound_ligands.erase r = []
        rw [hslot]
        exact List.erase_cons_head r []
      refine ⟨by rw [hempty]; simp, fun r' hr' => ?_⟩
      rw [hempty] at hr'
      exact absurd hr' (List.not_mem_nil r')
    · rw [if_neg hip] at hpI'
      have hsOK := h.1 i p hpI'
      refine slotOK_intro _ i p hsOK.1 fun r' hr' => ?_
      obtain ⟨l0, hg0, hb0, hib0⟩ := slotOK_elim s i p hsOK r' hr'
      have hne : r' ≠ r := by
        intro e
        subst e
        have hmem_pi : r' ∈ pro.bound_ligands := by
          rw [hslot]
          exact List.mem_singleton.2 rfl
        obtain ⟨l1, hg1, hb1, _⟩ :=
          slotOK_elim s pi pro (h.1 pi pro hp) r' hmem_pi
        have he1 : l0 = l1 := by
          have := hg0.symm.trans hg1
          injection this
        rw [← he1] at hb1
        rw [hb0] at hb1
        injection hb1 with hii
        exact hip hii.symm
      refine ⟨l0, ?_, hb0, hib0⟩
      rw [getLig_setLig_ne _ r r' _ hne]
      exact hg0
  · intro r'' lig'' hget''
    by_cases hrr : r'' = r
    · subst hrr
      rw [getLig_setLig_self _ r'' lig lig' hgetP] at hget''
      injection hget'' with he
      exact ligOK_free_intro _ r'' lig'' (he ▸ hfree') (he ▸ hbt')
    · rw [getLig_setLig_ne _ r r'' _ hrr] at hget''
      have hOK := h.2 r'' lig'' hget''
      cases hbb : lig''.is_bound
      · exact ligOK_free_intro _ _ _ hbb (ligOK_free_elim s r'' lig'' hOK hbb)
      · obtain ⟨i'', pro'', hbt'', hp'', hmem''⟩ :=
          ligOK_bound_elim s r'' lig'' hOK hbb
        have hi'' : pi ≠ i'' := by
          intro e
          subst e
          rw [hp] at hp''
          injection hp'' with he''
          rw [← he'', hslot] at hmem''
          have : r'' = r := by simpa using hmem''
          exact hrr this
        refine ligOK_bound_intro _ r'' lig'' i'' pro'' hbb hbt'' ?_ hmem''
        rw [setLig_proteins]
        show (updateAt s.proteins pi _)[i'']? = some pro''
        rw [getElem?_updateAt, if_neg hi'']
        exact hp''

theorem inv_unbind (s : SimState) (r : LigRef) (dir : Vec) (kick : ℚ)
    (h : Inv s) : Inv (unbind s r dir kick) := by
  unfold unbind
  split
  · exact h
  · next lig heq =>
    split
    · next hbt =>
      have hfree : lig.is_bound = false := by
        cases hbb : lig.is_bound
        · rfl
        · obtain ⟨pi, pro, hbt', _, _⟩ :=
            ligOK_bound_elim s r lig (h.2 r lig heq) hbb
          rw [hbt] at hbt'
          exact Option.noConfusion hbt'
      exact inv_setLig_free s r lig _ h heq
        (inv_free_not_in_slot s h r lig heq hfree) rfl rfl
    · next pi hbt =>
      split
      · next hp =>
        exfalso
        cases hbb : lig.is_bound
        · have := ligOK_free_elim s r lig (h.2 r lig heq) hbb
          rw [hbt] at this
          exact Option.noConfusion this
        · obtain ⟨pi2, pro2, hbt2, hp2, _⟩ :=
            ligOK_bound_elim s r lig (h.2 r lig heq) hbb
          rw [hbt] at hbt2
          injection hbt2 with hii
          subst hii
          rw [hp] at hp2
          exact Option.noConfusion hp2
      · next pro hp =>
        have hbb : lig.is_bound = true := by
          cases hbb : lig.is_bound
          · have := ligOK_free_elim s r lig (h.2 r lig heq) hbb
            rw [hbt] at this
            exact Option.noConfusion this
          · rfl
        obtain ⟨pi2, pro2, hbt2, hp2, hslot2⟩ := inv_bound_slot s h r lig heq hbb
        rw [hbt] at hbt2
        injection hbt2 with hii
        subst hii
        rw [hp] at hp2
        injection hp2 with hpe
        subst hpe
        exact inv_unbind_core s r lig _ pi pro h heq hp hslot2 rfl rfl

/-! ## Invariant preservation: the binding scan -/

/-- The state with reference `r` appended to the slot of protein `i`
(the `bound_ligands.append` part of the binding scan). -/
def appendSlotAt (s : SimState) (i : ℕ) (r : LigRef) : SimState :=
  let f : Protein → Protein :=
    fun p => { p with bound_ligands := p.bound_ligands ++ [r] }
  { s with proteins := updateAt s.proteins i f }

theorem inv_bindLig_core (s : SimState) (r : LigRef) (lig lig' : Ligand)
    (i : ℕ) (pro : Protein) (h : Inv s) (hget : s.getLig r = some lig)
    (hfree : lig.is_bound = false) (hp : s.proteins[i]? = some pro)
    (hemp : pro.bound_ligands = []) (hb' : lig'.is_bound = true)
    (hbt' : lig'.bound_to = some i) :
    Inv (SimState.setLig (appendSlotAt s i r) r lig') := by
  have hgetP : (appendSlotAt s i r).getLig r = some lig := hget
  have hnotin := inv_free_not_in_slot s h r lig hget hfree
  refine inv_intro _ ?_ ?_
  · intro j p hpj
    rw [setLig_proteins] at hpj
    have hpj' : (updateAt s.proteins i
        (fun q => { q with bound_ligands := q.bound_ligands ++ [r] }))[j]?
        = some p := hpj
    rw [getElem?_updateAt] at hpj'
    by_cases hij : i = j
    · subst hij
      rw [if_pos rfl, hp] at hpj'
      injection hpj' with hpe
      have hpl : p.bound_ligands = [r] := by
        rw [← hpe]
        show pro.bound_ligands ++ [r] = [r]
        rw [hemp]
        rfl
      refine slotOK_intro _ i p (by rw [hpl]; simp) fun r' hr' => ?_
      rw [hpl] at hr'
      have hre : r' = r := by simpa using hr'
      subst hre
      exact ⟨lig', getLig_setLig_self _ r' lig lig' hgetP, hbt', hb'⟩
    · rw [if_neg hij] at hpj'
      have hsOK := h.1 j p hpj'
      refine slotOK_intro _ j p hsOK.1 fun r' hr' => ?_
      obtain ⟨l0, hg0, hb0, hib0⟩ := slotOK_elim s j p hsOK r' hr'
      have hne : r' ≠ r := fun e => hnotin j p hpj' (e ▸ hr')
      refine ⟨l0, ?_, hb0, hib0⟩
      rw [getLig_setLig_ne _ r r' _ hne]
      exact hg0
  · intro r'' lig'' hget''
    by_cases hrr : r'' = r
    · subst hrr
      rw [getLig_setLig_self _ r'' lig lig' hgetP] at hget''
      injection hget'' with he
      refine ligOK_bound_intro _ r'' lig'' i
        { pro with bound_ligands := pro.bound_ligands ++ [r''] }
        (he ▸ hb') (he ▸ hbt') ?_ ?_
      · rw [setLig_proteins]
        show (updateAt s.proteins i _)[i]? = _
        rw [getElem?_updateAt, if_pos rfl, hp]
        rfl
      · exact List.mem_append_right _ (List.mem_singleton.2 rfl)
    · rw [getLig_setLig_ne _ r r'' _ hrr] at hget''
      have hOK := h.2 r'' lig'' hget''
      cases hbb : lig''.is_bound
      · exact ligOK_free_intro _ _ _ hbb (ligOK_free_elim s r'' lig'' hOK hbb)
      · obtain ⟨i'', pro'', hbt'', hp'', hmem''⟩ :=
          ligOK_bound_elim s r'' lig'' hOK hbb
        by_cases hii : i = i''
        · subst hii
          rw [hp] at hp''
          injection hp'' with he''
          rw [← he'', hemp] at hmem''
          exact absurd hmem'' (List.not_mem_nil r'')
        · refine ligOK_bound_intro _ r'' lig'' i'' pro'' hbb hbt'' ?_ hmem''
          rw [setLig_proteins]
          show (updateAt s.proteins i _)[i'']? = some pro''
          rw [getElem?_updateAt, if_neg hii]
          exact hp''

theorem inv_bindLig (s : SimState) (r : LigRef) (draw : ℕ → Bool)
    (lig : Ligand) (h : Inv s) (hget : s.getLig r = some lig)
    (hfree : lig.is_bound = false) : Inv (bindLig s r draw) := by
  unfold bindLig
  split
  · exact h
  · next lig0 heq0 =>
    have he0 : lig = lig0 := by
      have := hget.symm.trans heq0
      injection this
    subst he0
    split
    · exact h
    · next i hfb =>
      have hbA : bindsAt s.proteins lig.pos s.params.binding_radius draw i
          = true := by
        unfold firstBindable at hfb
        have := List.find?_some hfb
        simpa using this
      obtain ⟨pro, hp, hemp, _, _⟩ :=
        (bindsAt_iff s.proteins lig.pos s.params.binding_radius draw i).1 hbA
      exact inv_bindLig_core s r lig _ i pro h hget hfree hp hemp rfl rfl

/-! ## Invariant preservation: the per-ligand loop and the step -/

theorem inv_processLig (s : SimState) (r : LigRef) (b : Bool)
    (onD : ℕ → Bool) (dir : Vec) (kick : ℚ) (h : Inv s) :
    Inv (processLig s r b onD dir kick) := by
  unfold processLig
  split
  · exact h
  · next lig heq =>
    split
    · split
      · exact inv_unbind _ r dir kick (inv_snapLig s r h)
      · exact inv_snapLig s r h
    · next hnb =>
      have hfree : lig.is_bound = false := by
        cases hbb : lig.is_bound
        · rfl
        · exact absurd hbb hnb
      exact inv_bindLig s r onD lig h heq hfree

theorem inv_fold_processLig (o : Oracle) (L : List LigRef) :
    ∀ s : SimState, Inv s →
      Inv (L.foldl
        (fun st r => processLig st r (o.offDraw r) (o.onDraw r) (o.dir r) (o.kick r))
        s) := by
  induction L with
  | nil => exact fun s h => h
  | cons a t ih =>
      intro s h
      exact ih _ (inv_processLig s a _ _ _ _ h)

theorem moveLig_is_bound (rect : Rect) (d : Vec) (l : Ligand) :
    (moveLig rect d l).is_bound = l.is_bound := by
  unfold moveLig
  split <;> rfl

theorem moveLig_bound_to (rect : Rect) (d : Vec) (l : Ligand) :
    (moveLig rect d l).bound_to = l.bound_to := by
  unfold moveLig
  split <;> rfl

theorem moveLig_of_bound (rect : Rect) (d : Vec) (l : Ligand)
    (h : l.is_bound = true) : moveLig rect d l = l := by
  unfold moveLig
  simp [h]

theorem movePhase_proteins (o : Oracle) (s : SimState) :
    (movePhase o s).proteins
      = mapIdxFrom (fun i p => moveProtein simRect (o.dispP i) p) 0 s.proteins :=
  rfl

/-- The displacement the oracle hands the ligand behind a reference. -/
def ligDisp (o : Oracle) (r : LigRef) : Vec :=
  match r.species with
  | .normal => o.dispL r.idx
  | .competitor => o.dispC r.idx

theorem getLig_movePhase (o : Oracle) (s : SimState) (r : LigRef) :
    (movePhase o s).getLig r
      = (s.getLig r).map (fun l => moveLig simRect (ligDisp o r) l) := by
  rcases r with ⟨sp, i⟩
  cases sp <;>
    simp [SimState.getLig, movePhase, getElem?_mapIdxFrom, ligDisp]

theorem inv_movePhase (o : Oracle) (s : SimState) (h : Inv s) :
    Inv (movePhase o s) := by
  refine inv_intro _ ?_ ?_
  · intro i p hp
    rw [movePhase_proteins, getElem?_mapIdxFrom] at hp
    cases hp0 : s.proteins[i]? with
    | none =>
        rw [hp0] at hp
        exact Option.noConfusion hp
    | some p0 =>
        rw [hp0, Option.map_some'] at hp
        injection hp with hpe
        have hsOK := h.1 i p0 hp0
        have hslot_eq : p.bound_ligands = p0.bound_ligands := by
          rw [← hpe]
          rfl
        refine slotOK_intro _ i p (by rw [hslot_eq]; exact hsOK.1)
          fun r' hr' => ?_
        rw [hslot_eq] at hr'
        obtain ⟨l0, hg0, hb0, hib0⟩ := slotOK_elim s i p0 hsOK r' hr'
        refine ⟨l0, ?_, hb0, hib0⟩
        rw [getLig_movePhase, hg0, Option.map_some',
          moveLig_of_bound _ _ l0 hib0]
  · intro r lig' hget'
    rw [getLig_movePhase] at hget'
    cases hg0 : s.getLig r with
    | none =>
        rw [hg0] at hget'
        exact Option.noConfusion hget'
    | some l0 =>
        rw [hg0, Option.map_some'] at hget'
        injection hget' with he
        have hOK := h.2 r l0 hg0
        cases hbb : l0.is_bound
        · refine ligOK_free_intro _ _ _ ?_ ?_
          · rw [← he, moveLig_is_bound]
            exact hbb
          · rw [← he, moveLig_bound_to]
            exact ligOK_free_elim s r l0 hOK hbb
        · rw [moveLig_of_bound _ _ l0 hbb] at he
          obtain ⟨pi, pro, hbt, hp, hmem⟩ := ligOK_bound_elim s r l0 hOK hbb
          refine ligOK_bound_intro _ r lig' pi
            (moveProtein simRect (o.dispP (0 + pi)) pro) ?_ ?_ ?_ ?_
          · rw [← he]
            exact hbb
          · rw [← he]
            exact hbt
          · rw [movePhase_proteins, getElem?_mapIdxFrom, hp]
            rfl
          · show r ∈ (moveProtein simRect (o.dispP (0 + pi)) pro).bound_ligands
            exact hmem

theorem inv_step (o : Oracle) (s : SimState) (h : Inv s) : Inv (step o s) := by
  unfold step
  split
  · exact h
  · exact inv_fold_processLig o _ _ (inv_movePhase o s h)

/-! ## Invariant preservation: growth and removal -/

theorem inv_clear (s : SimState) :
    Inv { s with proteins := [], ligands := [], competitors := [] } := by
  refine inv_intro _ ?_ ?_
  · intro i p hp
    simp at hp
  · intro r lig hg
    rcases r with ⟨sp, i⟩
    cases sp <;> simp [SimState.getLig] at hg

theorem inv_append_protein (s : SimState) (p0 : Protein)
    (hemp : p0.bound_ligands = []) (h : Inv s) :
    Inv { s with proteins := s.proteins ++ [p0] } := by
  refine inv_intro _ ?_ ?_
  · intro i p hp
    have hp' : (s.proteins ++ [p0])[i]? = some p := hp
    rw [List.getElem?_append] at hp'
    by_cases hi : i < s.proteins.length
    · rw [if_pos hi] at hp'
      have hsOK := h.1 i p hp'
      exact slotOK_getLig_eq s _ i p (fun r' _ => rfl) hsOK
    · rw [if_neg hi] at hp'
      cases hd : i - s.proteins.length with
      | zero =>
          rw [hd] at hp'
          injection hp' with hpe
          have hpe' : p0 = p := hpe
          refine slotOK_intro _ i p ?_ fun r' hr' => ?_
          · rw [← hpe', hemp]
            simp
          · rw [← hpe', hemp] at hr'
            exact absurd hr' (List.not_mem_nil r')
      | succ k =>
          rw [hd] at hp'
          simp at hp'
  · intro r lig hg
    have hOK := h.2 r lig hg
    cases hbb : lig.is_bound
    · exact ligOK_free_intro _ _ _ hbb (ligOK_free_elim s r lig hOK hbb)
    · obtain ⟨pi, pro, hbt, hp, hmem⟩ := ligOK_bound_elim s r lig hOK hbb
      refine ligOK_bound_intro _ r lig pi pro hbb hbt ?_ hmem
      show (s.proteins ++ [p0])[pi]? = some pro
      rw [List.getElem?_append, if_pos (List.getElem?_eq_some.1 hp).1]
      exact hp

theorem appendLig_proteins (s : SimState) (sp : Species) (l : Ligand) :
    (appendLig s sp l).1.proteins = s.proteins := by
  cases sp <;> rfl

theorem getLig_appendLig_old (s : SimState) (sp : Species) (l : Ligand)
    (r : LigRef) (lig : Ligand) (h : s.getLig r = some lig) :
    (appendLig s sp l).1.getLig r = some lig := by
  rcases r with ⟨sp', i⟩
  cases sp <;> cases sp' <;>
    simp only [SimState.getLig, appendLig] at h ⊢ <;>
    first
      | exact h
      | (rw [List.getElem?_append, if_pos (List.getElem?_eq_some.1 h).1]; exact h)

theorem getLig_appendLig_cases (s : SimState) (sp : Species) (l : Ligand)
    (r : LigRef) (lig : Ligand)
    (h : (appendLig s sp l).1.getLig r = some lig) :
    s.getLig r = some lig ∨ lig = l := by
  rcases r with ⟨sp', i⟩
  cases sp <;> cases sp' <;>
    simp only [SimState.getLig, appendLig] at h ⊢
  · rw [List.getElem?_append] at h
    by_cases hi : i < s.ligands.length
    · rw [if_pos hi] at h
      exact Or.inl h
    · rw [if_neg hi] at h
      cases hd : i - s.ligands.length with
      | zero =>
          rw [hd] at h
          injection h with he
          exact Or.inr he.symm
      | succ k =>
          rw [hd] at h
          simp at h
  · exact Or.inl h
  · exact Or.inl h
  · rw [List.getElem?_append] at h
    by_cases hi : i < s.competitors.length
    · rw [if_pos hi] at h
      exact Or.inl h
    · rw [if_neg hi] at h
      cases hd : i - s.competitors.length with
      | zero =>
          rw [hd] at h
          injection h with he
          exact Or.inr he.symm
      | succ k =>
          rw [hd] at h
          simp at h

theorem inv_appendLig (s : SimState) (sp : Species) (pos : Vec) (h : Inv s) :
    Inv (appendLig s sp (newLigand sp pos)).1 := by
  refine inv_intro _ ?_ ?_
  · intro i p hp
    rw [appendLig_proteins] at hp
    have hsOK := h.1 i p hp
    refine slotOK_intro _ i p hsOK.1 fun r' hr' => ?_
    obtain ⟨l0, hg0, hb0, hib0⟩ := slotOK_elim s i p hsOK r' hr'
    exact ⟨l0, getLig_appendLig_old s sp _ r' l0 hg0, hb0, hib0⟩
  · intro r lig hg
    rcases getLig_appendLig_cases s sp _ r lig hg with hold | hle
    · exact ligOK_proteins_eq s _ r lig (appendLig_proteins s sp _)
        (h.2 r lig hold)
    · refine ligOK_free_intro _ r lig ?_ ?_
      · rw [hle]
        rfl
      · rw [hle]
        rfl

theorem inv_addProteins (smp : ℕ → ℕ → Vec) (n : ℕ) :
    ∀ s : SimState, Inv s → Inv (addProteins smp n s) := by
  induction n generalizing smp with
  | zero => exact fun s h => h
  | succ k ih =>
      intro s h
      exact ih _ _ (inv_append_protein s _ rfl h)

theorem inv_addLigs (sp : Species) (smp : ℕ → ℕ → Vec) (n : ℕ) :
    ∀ s : SimState, Inv s → Inv (addLigs sp smp n s) := by
  induction n generalizing smp with
  | zero => exact fun s h => h
  | succ k ih =>
      intro s h
      exact ih _ _ (inv_unbind _ _ _ _ (inv_appendLig s sp _ h))

theorem inv_pop_protein (s : SimState) (lastP : Protein)
    (hlast : s.proteins[s.proteins.length - 1]? = some lastP)
    (hemp : lastP.bound_ligands = []) (h : Inv s) :
    Inv { s with proteins := s.proteins.dropLast } := by
  refine inv_intro _ ?_ ?_
  · intro i p hp
    have hp' : s.proteins.dropLast[i]? = some p := hp
    rw [List.getElem?_dropLast] at hp'
    by_cases hi : i < s.proteins.length - 1
    · rw [if_pos hi] at hp'
      have hsOK := h.1 i p hp'
      exact slotOK_getLig_eq s _ i p (fun r' _ => rfl) hsOK
    · rw [if_neg hi] at hp'
      exact Option.noConfusion hp'
  · intro r lig hg
    have hOK := h.2 r lig hg
    cases hbb : lig.is_bound
    · exact ligOK_free_intro _ _ _ hbb (ligOK_free_elim s r lig hOK hbb)
    · obtain ⟨pi, pro, hbt, hp, hmem⟩ := ligOK_bound_elim s r lig hOK hbb
      have hpi_lt : pi < s.proteins.length := (List.getElem?_eq_some.1 hp).1
      have hpi_ne : pi ≠ s.proteins.length - 1 := by
        intro e
        rw [e, hlast] at hp
        injection hp with he
        rw [← he, hemp] at hmem
        exact absurd hmem (List.not_mem_nil r)
      refine ligOK_bound_intro _ r lig pi pro hbb hbt ?_ hmem
      show s.proteins.dropLast[pi]? = some pro
      rw [List.getElem?_dropLast, if_pos (by omega)]
      exact hp

/-- After `unbind` on a valid reference, the ligand is free with no
back-reference. -/
theorem unbind_free_after (s : SimState) (r : LigRef) (d : Vec) (k : ℚ)
    (lig : Ligand) (hget : s.getLig r = some lig) :
    ∃ lig', (unbind s r d k).getLig r = some lig' ∧
      lig'.is_bound = false ∧ lig'.bound_to = none := by
  unfold unbind
  split
  · next hnone =>
    rw [hget] at hnone
    exact Option.noConfusion hnone
  · next lig0 heq =>
    have he : lig = lig0 := by
      have := hget.symm.trans heq
      injection this
    subst he
    split
    · refine ⟨_, getLig_setLig_self s r lig _ hget, ?_, ?_⟩
      · rfl
      · rfl
    · split
      · refine ⟨_, getLig_setLig_self s r lig _ hget, ?_, ?_⟩
        · rfl
        · rfl
      · refine ⟨_, getLig_setLig_self (eraseSlotAt s _ r) r lig _ hget, ?_, ?_⟩
        · rfl
        · rfl

/-- After `unbind` of the single occupant of protein `pi`, the slot is
empty. -/
theorem unbind_clears_slot (s : SimState) (r : LigRef) (d : Vec) (k : ℚ)
    (lig : Ligand) (pi : ℕ) (pro : Protein) (hget : s.getLig r = some lig)
    (hbt : lig.bound_to = some pi) (hp : s.proteins[pi]? = some pro) :
    (unbind s r d k).proteins[pi]?
      = some { pro with bound_ligands := pro.bound_ligands.erase r } := by
  unfold unbind
  split
  · next hnone =>
    rw [hget] at hnone
    exact Option.noConfusion hnone
  · next lig0 heq =>
    have he : lig = lig0 := by
      have := hget.symm.trans heq
      injection this
    subst he
    split
    · next hbt0 =>
      rw [hbt] at hbt0
      exact Option.noConfusion hbt0
    · next pi0 hbt0 =>
      rw [hbt] at hbt0
      injection hbt0 with hpi
      subst hpi
      split
      · next hp0 =>
        rw [hp] at hp0
        exact Option.noConfusion hp0
      · next pro0 hp0 =>
        rw [hp] at hp0
        injection hp0 with hpro
        subst hpro
        rw [setLig_proteins]
        show (updateAt s.proteins pi _)[pi]? = _
        rw [getElem?_updateAt, if_pos rfl, hp]
        rfl

theorem inv_removeProteinE (dirs : ℕ → Vec) (kicks : ℕ → ℚ) (s : SimState)
    (h : Inv s) : Inv (removeProteinE dirs kicks s) := by
  unfold removeProteinE
  split
  · exact h
  · next lastP hlast =>
    have hlast' : s.proteins[s.proteins.length - 1]? = some lastP := by
      rw [← List.getLast?_eq_getElem?]
      exact hlast
    have hsOK := h.1 _ lastP hlast'
    cases hsl : lastP.bound_ligands with
    | nil =>
        exact inv_pop_protein s lastP hlast' hsl h
    | cons a t =>
        cases t with
        | nil =>
            obtain ⟨lig, hga, hba, hia⟩ := slotOK_elim s _ lastP hsOK a
              (by rw [hsl]; exact List.mem_singleton.2 rfl)
            have hu : Inv (unbind s a (dirs 0) (kicks 0)) :=
              inv_unbind s a _ _ h
            have hclear := unbind_clears_slot s a (dirs 0) (kicks 0) lig _
              lastP hga hba hlast'
            have hlen := unbind_proteins_length s a (dirs 0) (kicks 0)
            refine inv_pop_protein (unbind s a (dirs 0) (kicks 0))
              { lastP with bound_ligands := lastP.bound_ligands.erase a } ?_ ?_ hu
            · rw [hlen]
              exact hclear
            · show lastP.bound_ligands.erase a = []
              rw [hsl]
              exact List.erase_cons_head a []
        | cons b t2 =>
            exfalso
            have hl := hsOK.1
            rw [hsl] at hl
            simp at hl

theorem inv_removeProteinsE (dirs : ℕ → ℕ → Vec) (kicks : ℕ → ℕ → ℚ) (n : ℕ) :
    ∀ s : SimState, Inv s → Inv (removeProteinsE dirs kicks n s) := by
  induction n generalizing dirs kicks with
  | zero => exact fun s h => h
  | succ k ih =>
      intro s h
      exact ih _ _ _ (inv_removeProteinE (dirs 0) (kicks 0) s h)

theorem inv_pop_ligN (s : SimState) (h : Inv s)
    (hfree : ∀ lig, s.getLig ⟨Species.normal, s.ligands.length - 1⟩ = some lig →
      lig.is_bound = false) :
    Inv { s with ligands := s.ligands.dropLast } := by
  refine inv_intro _ ?_ ?_
  · intro i p hp
    have hsOK := h.1 i p hp
    refine slotOK_intro _ i p hsOK.1 fun r' hr' => ?_
    obtain ⟨l0, hg0, hb0, hib0⟩ := slotOK_elim s i p hsOK r' hr'
    refine ⟨l0, ?_, hb0, hib0⟩
    rcases r' with ⟨sp', j⟩
    cases sp'
    · have hj : j < s.ligands.length := (List.getElem?_eq_some.1 hg0).1
      have hjne : j ≠ s.ligands.length - 1 := by
        intro e
        subst e
        have := hfree l0 hg0
        rw [this] at hib0
        exact Bool.noConfusion hib0
      show s.ligands.dropLast[j]? = some l0
      rw [List.getElem?_dropLast, if_pos (by omega)]
      exact hg0
    · exact hg0
  · intro r lig hg
    have hg' : s.getLig r = some lig := by
      rcases r with ⟨sp', j⟩
      cases sp'
      · have hgd : s.ligands.dropLast[j]? = some lig := hg
        rw [List.getElem?_dropLast] at hgd
        by_cases hj : j < s.ligands.length - 1
        · rw [if_pos hj] at hgd
          exact hgd
        · rw [if_neg hj] at hgd
          exact Option.noConfusion hgd
      · exact hg
    exact ligOK_proteins_eq s _ r lig rfl (h.2 r lig hg')

theorem inv_pop_ligC (s : SimState) (h : Inv s)
    (hfree : ∀ lig,
      s.getLig ⟨Species.competitor, s.competitors.length - 1⟩ = some lig →
      lig.is_bound = false) :
    Inv { s with competitors := s.competitors.dropLast } := by
  refine inv_intro _ ?_ ?_
  · intro i p hp
    have hsOK := h.1 i p hp
    refine slotOK_intro _ i p hsOK.1 fun r' hr' => ?_
    obtain ⟨l0, hg0, hb0, hib0⟩ := slotOK_elim s i p hsOK r' hr'
    refine ⟨l0, ?_, hb0, hib0⟩
    rcases r' with ⟨sp', j⟩
    cases sp'
    · exact hg0
    · have hj : j < s.competitors.length := (List.getElem?_eq_some.1 hg0).1
      have hjne : j ≠ s.competitors.length - 1 := by
        intro e
        subst e
        have := hfree l0 hg0
        rw [this] at hib0
        exact Bool.noConfusion hib0
      show s.competitors.dropLast[j]? = some l0
      rw [List.getElem?_dropLast, if_pos (by omega)]
      exact hg0
  · intro r lig hg
    have hg' : s.getLig r = some lig := by
      rcases r with ⟨sp', j⟩
      cases sp'
      · exact hg
      · have hgd : s.competitors.dropLast[j]? = some lig := hg
        rw [List.getElem?_dropLast] at hgd
        by_cases hj : j < s.competitors.length - 1
        · rw [if_pos hj] at hgd
          exact hgd
        · rw [if_neg hj] at hgd
          exact Option.noConfusion hgd
    exact ligOK_proteins_eq s _ r lig rfl (h.2 r lig hg')

theorem inv_removeLigE (sp : Species) (dir : Vec) (kick : ℚ) (s : SimState)
    (h : Inv s) : Inv (removeLigE sp dir kick s) := by
  cases sp with
  | normal =>
      show Inv (removeLigE Species.normal dir kick s)
      unfold removeLigE
      by_cases hne : s.ligands.isEmpty = true
      · rw [if_pos hne]
        exact h
      · rw [if_neg hne]
        have hnonempty : 0 < s.ligands.length := by
          cases hl : s.ligands with
          | nil => rw [hl] at hne; simp at hne
          | cons a t => simp
        have hvalid : ∃ lig0,
            s.getLig ⟨Species.normal, s.ligands.length - 1⟩ = some lig0 := by
          show ∃ lig0, s.ligands[s.ligands.length - 1]? = some lig0
          rw [List.getElem?_eq_getElem (by omega)]
          exact ⟨_, rfl⟩
        obtain ⟨lig0, hg0⟩ := hvalid
        obtain ⟨lig', hg', hf', _⟩ := unbind_free_after s _ dir kick lig0 hg0
        have hlen2 :=
          (unbind_ligands_length s ⟨Species.normal, s.ligands.length - 1⟩ dir kick).1
        refine inv_pop_ligN (unbind s _ dir kick)
          (inv_unbind s _ dir kick h) ?_
        intro lig2 hg2
        rw [hlen2] at hg2
        have : lig' = lig2 := by
          have := hg'.symm.trans hg2
          injection this
        rw [← this]
        exact hf'
  | competitor =>
      show Inv (removeLigE Species.competitor dir kick s)
      unfold removeLigE
      by_cases hne : s.competitors.isEmpty = true
      · rw [if_pos hne]
        exact h
      · rw [if_neg hne]
        have hnonempty : 0 < s.competitors.length := by
          cases hl : s.competitors with
          | nil => rw [hl] at hne; simp at hne
          | cons a t => simp
        have hvalid : ∃ lig0,
            s.getLig ⟨Species.competitor, s.competitors.length - 1⟩ = some lig0 := by
          show ∃ lig0, s.competitors[s.competitors.length - 1]? = some lig0
          rw [List.getElem?_eq_getElem (by omega)]
          exact ⟨_, rfl⟩
        obtain ⟨lig0, hg0⟩ := hvalid
        obtain ⟨lig', hg', hf', _⟩ := unbind_free_after s _ dir kick lig0 hg0
        have hlen2 :=
          (unbind_ligands_length s ⟨Species.competitor, s.competitors.length - 1⟩ dir kick).2
        refine inv_pop_ligC (unbind s _ dir kick)
          (inv_unbind s _ dir kick h) ?_
        intro lig2 hg2
        rw [hlen2] at hg2
        have : lig' = lig2 := by
          have := hg'.symm.trans hg2
          injection this
        rw [← this]
        exact hf'

theorem inv_removeLigsE (sp : Species) (dirs : ℕ → Vec) (kicks : ℕ → ℚ)
    (n : ℕ) : ∀ s : SimState, Inv s → Inv (removeLigsE sp dirs kicks n s) := by
  induction n generalizing dirs kicks with
  | zero => exact fun s h => h
  | succ k ih =>
      intro s h
      exact ih _ _ _ (inv_removeLigE sp (dirs 0) (kicks 0) s h)

theorem inv_reconcileE (o : SpawnOracle) (s : SimState) (h : Inv s) :
    Inv (reconcileE o s) := by
  unfold reconcileE
  have h1 : Inv (reconcileProteinsE o s) := by
    unfold reconcileProteinsE
    split
    · exact inv_addProteins _ _ _ h
    · split
      · exact inv_removeProteinsE _ _ _ _ h
      · exact h
  have h2 : Inv (reconcileLigsE o (reconcileProteinsE o s)) := by
    unfold reconcileLigsE
    split
    · exact inv_addLigs _ _ _ _ h1
    · split
      · exact inv_removeLigsE _ _ _ _ _ h1
      · exact h1
  unfold reconcileCompsE
  split
  · exact inv_addLigs _ _ _ _ h2
  · split
    · exact inv_removeLigsE _ _ _ _ _ h2
    · exact h2

theorem inv_resetParticles (o : SpawnOracle) (s : SimState) :
    Inv (resetParticles o s) := by
  unfold resetParticles
  exact inv_addLigs _ _ _ _ (inv_addLigs _ _ _ _ (inv_addProteins _ _ _
    (inv_clear s)))

theorem inv_resetGraph (s : SimState) (h : Inv s) : Inv (resetGraph s) := by
  refine inv_intro _ ?_ ?_
  · intro i p hp
    exact slotOK_getLig_eq s _ i p (fun _ _ => rfl) (h.1 i p hp)
  · intro r lig hg
    exact ligOK_proteins_eq s _ r lig rfl (h.2 r lig hg)

/-! ## C1: the binding invariant -/

/-- A state with one protein holding one bound ligand and slider targets
that remove the protein: the failing input for `Simulation.py`'s
`_update_particle_counts`. -/
def c1Params : Params :=
  { defaultParams with num_proteins := 0, num_ligands := 1, num_competitor_ligands := 0 }

/-- See `c1BadState`. -/
def c1BadState : SimState :=
  { params := c1Params,
    paused := false,
    proteins := [⟨⟨100, 100⟩, Vec.zero, PROTEIN_COLOR, [⟨Species.normal, 0⟩]⟩],
    ligands := [⟨⟨100, 100⟩, Vec.zero, BOUND_LIGAND_COLOR, true, some 0⟩],
    competitors := [], time_steps := [], bound_ligands_data := [],
    bound_competitor_data := [] }

/-- A concrete spawn oracle for witnesses. -/
def demoSpawnOracle : SpawnOracle :=
  { sampleP := fun _ _ => ⟨450, 400⟩, sampleL := fun _ _ => ⟨450, 400⟩,
    sampleC := fun _ _ => ⟨450, 400⟩,
    remDirP := fun _ _ => ⟨1, 0⟩, remKickP := fun _ _ => 1,
    remDirL := fun _ => ⟨1, 0⟩, remKickL := fun _ => 1,
    remDirC := fun _ => ⟨1, 0⟩, remKickC := fun _ => 1 }

theorem inv_c1BadState : Inv c1BadState := by
  refine inv_intro _ ?_ ?_
  · intro i p hp
    have hi : i < 1 := (List.getElem?_eq_some.1 hp).1
    interval_cases i
    have hp' : some (⟨⟨100, 100⟩, Vec.zero, PROTEIN_COLOR,
        [⟨Species.normal, 0⟩]⟩ : Protein) = some p := hp
    injection hp' with hpe
    subst hpe
    refine slotOK_intro _ 0 _ (by simp) ?_
    intro r hr
    have hre : r = ⟨Species.normal, 0⟩ := by simpa using hr
    subst hre
    exact ⟨⟨⟨100, 100⟩, Vec.zero, BOUND_LIGAND_COLOR, true, some 0⟩,
      rfl, rfl, rfl⟩
  · intro r lig hg
    rcases r with ⟨sp, j⟩
    cases sp
    · have hj : j < 1 := (List.getElem?_eq_some.1 hg).1
      interval_cases j
      have hg' : some (⟨⟨100, 100⟩, Vec.zero, BOUND_LIGAND_COLOR, true,
          some 0⟩ : Ligand) = some lig := hg
      injection hg' with hge
      subst hge
      exact ligOK_bound_intro _ _ _ 0
        ⟨⟨100, 100⟩, Vec.zero, PROTEIN_COLOR, [⟨Species.normal, 0⟩]⟩
        rfl rfl rfl (by simp)
    · have hj : j < 0 := (List.getElem?_eq_some.1 hg).1
      omega

/-- C1: the bidirectional binding invariant — every protein slot holds at
most one ligand, slot entries point back at their protein with `is_bound`
set, and every bound ligand's `bound_to` names a live protein whose slot
holds it — is preserved by the step, by `unbind`, by the `Endprodukt.py`
population reconciliation, and is (re)established by the reset; but
`Simulation.py`'s `_update_particle_counts` breaks it: from the invariant
state `c1BadState` (one protein holding one bound ligand, protein target
0), reconciling pops the protein without unbinding, leaving the ligand
`is_bound` with a dangling `bound_to` — the resulting state violates the
invariant. -/
theorem c1_binding_invariant :
    (∀ (o : Oracle) (s : SimState), Inv s → Inv (step o s)) ∧
    (∀ (s : SimState) (r : LigRef) (dir : Vec) (kick : ℚ),
      Inv s → Inv (unbind s r dir kick)) ∧
    (∀ (o : SpawnOracle) (s : SimState), Inv s → Inv (reconcileE o s)) ∧
    (∀ (o : SpawnOracle) (s : SimState),
      Inv (resetGraph (resetParticles o s))) ∧
    (Inv c1BadState ∧ ¬ Inv (reconcileSim demoSpawnOracle c1BadState)) := by
  refine ⟨inv_step, fun s r dir kick h => inv_unbind s r dir kick h,
    inv_reconcileE, fun o s => inv_resetGraph _ (inv_resetParticles o s),
    inv_c1BadState, ?_⟩
  intro hInv
  have hg : (reconcileSim demoSpawnOracle c1BadState).getLig
      ⟨Species.normal, 0⟩
      = some ⟨⟨100, 100⟩, Vec.zero, BOUND_LIGAND_COLOR, true, some 0⟩ := rfl
  have hOK := hInv.2 _ _ hg
  obtain ⟨pi, pro, hbt, hp, _⟩ := ligOK_bound_elim _ _ _ hOK rfl
  have hpi : pi = 0 := by
    have hbt' : (some 0 : Option ℕ) = some pi := hbt
    injection hbt' with h0
    exact h0.symm
  rw [hpi] at hp
  have hp' : (none : Option Protein) = some pro := hp
  exact Option.noConfusion hp'

/-- Witness for C1: the invariant holds at `c1BadState` and is preserved by
one step from it. -/
theorem c1_binding_invariant_witness :
    Inv c1BadState ∧ Inv (step demoOracle c1BadState) :=
  ⟨inv_c1BadState,
    c1_binding_invariant.1 demoOracle c1BadState inv_c1BadState⟩

/-! ## Shape lemmas for reconciliation -/

theorem addProteins_shape (smp : ℕ → ℕ → Vec) (n : ℕ) :
    ∀ s : SimState,
      (addProteins smp n s).proteins.length = s.proteins.length + n ∧
      (addProteins smp n s).ligands = s.ligands ∧
      (addProteins smp n s).competitors = s.competitors ∧
      (addProteins smp n s).params = s.params := by
  induction n generalizing smp with
  | zero => exact fun s => ⟨rfl, rfl, rfl, rfl⟩
  | succ k ih =>
      intro s
      have hstep : addProteins smp (k + 1) s
          = addProteins (fun j => smp (j + 1)) k
            { s with proteins := s.proteins ++
                [newProtein (createPos (allSpheres s) proteinRadius (smp 0))] } :=
        rfl
      obtain ⟨h1, h2, h3, h4⟩ := ih (fun j => smp (j + 1))
        { s with proteins := s.proteins ++
            [newProtein (createPos (allSpheres s) proteinRadius (smp 0))] }
      rw [hstep, h1, h2, h3, h4]
      refine ⟨?_, rfl, rfl, rfl⟩
      simp
      omega

/-- The lookup of the freshly appended ligand. -/
theorem getLig_appendLig_new (s : SimState) (sp : Species) (l : Ligand) :
    (appendLig s sp l).1.getLig (appendLig s sp l).2 = some l := by
  cases sp
  · show (s.ligands ++ [l])[s.ligands.length]? = some l
    exact List.getElem?_concat_length s.ligands l
  · show (s.competitors ++ [l])[s.competitors.length]? = some l
    exact List.getElem?_concat_length s.competitors l

/-- `unbind` on a ligand with no back-reference only rewrites the ligand's
own state. -/
theorem unbind_on_fresh (s : SimState) (r : LigRef) (d : Vec) (k : ℚ)
    (lig : Ligand) (hget : s.getLig r = some lig)
    (hbt : lig.bound_to = none) :
    unbind s r d k = s.setLig r { lig with is_bound := false, bound_to := none, color := initialColor r.species } := by
  unfold unbind
  split
  · next hnone =>
    rw [hget] at hnone
    exact Option.noConfusion hnone
  · next lig0 heq =>
    have he : lig = lig0 := by
      have := hget.symm.trans heq
      injection this
    subst he
    split
    · rfl
    · next pi hbt0 =>
      rw [hbt] at hbt0
      exact Option.noConfusion hbt0

theorem setLig_shape (s : SimState) (r : LigRef) (l : Ligand) :
    (s.setLig r l).ligands.length = s.ligands.length ∧
    (s.setLig r l).competitors.length = s.competitors.length :=
  ⟨setLig_length_ligands s r l, setLig_length_competitors s r l⟩

theorem addLigs_shape (sp : Species) (smp : ℕ → ℕ → Vec) (n : ℕ) :
    ∀ s : SimState,
      (addLigs sp smp n s).proteins = s.proteins ∧
      (addLigs sp smp n s).params = s.params ∧
      (addLigs sp smp n s).ligands.length
        = s.ligands.length + (if sp = Species.normal then n else 0) ∧
      (addLigs sp smp n s).competitors.length
        = s.competitors.length + (if sp = Species.normal then 0 else n) := by
  induction n generalizing smp with
  | zero =>
      intro s
      refine ⟨rfl, rfl, ?_, ?_⟩ <;> cases sp <;>
        simp only [ite_self, Nat.add_zero] <;> rfl
  | succ k ih =>
      intro s
      set pos := createPos (allSpheres s) ligandRadius (smp 0) with hpos
      have hstep : addLigs sp smp (k + 1) s
          = addLigs sp (fun j => smp (j + 1)) k
            (unbind (appendLig s sp (newLigand sp pos)).1
              (appendLig s sp (newLigand sp pos)).2 Vec.zero 0) := rfl
      have hnewget := getLig_appendLig_new s sp (newLigand sp pos)
      have hub := unbind_on_fresh (appendLig s sp (newLigand sp pos)).1
        (appendLig s sp (newLigand sp pos)).2 Vec.zero 0 (newLigand sp pos)
        hnewget rfl
      obtain ⟨h1, h2, h3, h4⟩ := ih (fun j => smp (j + 1))
        (unbind (appendLig s sp (newLigand sp pos)).1
          (appendLig s sp (newLigand sp pos)).2 Vec.zero 0)
      rw [hstep]
      refine ⟨?_, ?_, ?_, ?_⟩
      · rw [h1, hub, setLig_proteins, appendLig_proteins]
      · rw [h2, hub, setLig_params]
        cases sp <;> rfl
      · rw [h3, hub, setLig_length_ligands]
        cases sp <;> simp [appendLig] <;> omega
      · rw [h4, hub, setLig_length_competitors]
        cases sp <;> simp [appendLig] <;> omega

theorem foldl_unbind_shape (dirs : ℕ → Vec) (kicks : ℕ → ℚ)
    (L : List (ℕ × LigRef)) :
    ∀ s : SimState,
      (L.foldl (fun st ir => unbind st ir.2 (dirs ir.1) (kicks ir.1)) s).proteins.length
        = s.proteins.length ∧
      (L.foldl (fun st ir => unbind st ir.2 (dirs ir.1) (kicks ir.1)) s).ligands.length
        = s.ligands.length ∧
      (L.foldl (fun st ir => unbind st ir.2 (dirs ir.1) (kicks ir.1)) s).competitors.length
        = s.competitors.length ∧
      (L.foldl (fun st ir => unbind st ir.2 (dirs ir.1) (kicks ir.1)) s).params
        = s.params := by
  induction L with
  | nil => exact fun s => ⟨rfl, rfl, rfl, rfl⟩
  | cons a t ih =>
      intro s
      obtain ⟨h1, h2, h3, h4⟩ := ih (unbind s a.2 (dirs a.1) (kicks a.1))
      rw [List.foldl_cons]
      refine ⟨?_, ?_, ?_, ?_⟩
      · rw [h1, unbind_proteins_length]
      · rw [h2, (unbind_ligands_length _ _ _ _).1]
      · rw [h3, (unbind_ligands_length _ _ _ _).2]
      · rw [h4, unbind_params]

theorem removeProteinE_shape (dirs : ℕ → Vec) (kicks : ℕ → ℚ) (s : SimState) :
    (removeProteinE dirs kicks s).proteins.length = s.proteins.length - 1 ∧
    (removeProteinE dirs kicks s).ligands.length = s.ligands.length ∧
    (removeProteinE dirs kicks s).competitors.length = s.competitors.length ∧
    (removeProteinE dirs kicks s).params = s.params := by
  unfold removeProteinE
  split
  · next hnone =>
    have : s.proteins = [] := List.getLast?_eq_none_iff.1 hnone
    rw [this]
    exact ⟨rfl, rfl, rfl, rfl⟩
  · next lastP hlast =>
    obtain ⟨h1, h2, h3, h4⟩ :=
      foldl_unbind_shape dirs kicks lastP.bound_ligands.enum s
    refine ⟨?_, h2, h3, h4⟩
    show (List.foldl _ s _).proteins.dropLast.length = s.proteins.length - 1
    rw [List.length_dropLast, h1]

theorem removeProteinsE_shape (dirs : ℕ → ℕ → Vec) (kicks : ℕ → ℕ → ℚ)
    (n : ℕ) :
    ∀ s : SimState,
      (removeProteinsE dirs kicks n s).proteins.length
        = s.proteins.length - n ∧
      (removeProteinsE dirs kicks n s).ligands.length = s.ligands.length ∧
      (removeProteinsE dirs kicks n s).competitors.length
        = s.competitors.length ∧
      (removeProteinsE dirs kicks n s).params = s.params := by
  induction n generalizing dirs kicks with
  | zero => exact fun s => ⟨rfl, rfl, rfl, rfl⟩
  | succ k ih =>
      intro s
      have hstep : removeProteinsE dirs kicks (k + 1) s
          = removeProteinsE (fun j => dirs (j + 1)) (fun j => kicks (j + 1)) k
            (removeProteinE (dirs 0) (kicks 0) s) := rfl
      obtain ⟨h1, h2, h3, h4⟩ := ih (fun j => dirs (j + 1)) (fun j => kicks (j + 1))
        (removeProteinE (dirs 0) (kicks 0) s)
      obtain ⟨g1, g2, g3, g4⟩ := removeProteinE_shape (dirs 0) (kicks 0) s
      rw [hstep]
      refine ⟨?_, ?_, ?_, ?_⟩
      · rw [h1, g1]
        omega
      · rw [h2, g2]
      · rw [h3, g3]
      · rw [h4, g4]

theorem removeLigE_shape (sp : Species) (dir : Vec) (kick : ℚ) (s : SimState) :
    (removeLigE sp dir kick s).proteins.length = s.proteins.length ∧
    (removeLigE sp dir kick s).params = s.params ∧
    (removeLigE sp dir kick s).ligands.length
      = s.ligands.length - (if sp = Species.normal then 1 else 0) ∧
    (removeLigE sp dir kick s).competitors.length
      = s.competitors.length - (if sp = Species.normal then 0 else 1) := by
  cases sp
  · show (removeLigE Species.normal dir kick s).proteins.length = _ ∧ _
    unfold removeLigE
    by_cases hne : s.ligands.isEmpty = true
    · rw [if_pos hne]
      have : s.ligands = [] := List.isEmpty_iff.1 hne
      rw [this]
      exact ⟨rfl, rfl, rfl, rfl⟩
    · rw [if_neg hne]
      refine ⟨?_, ?_, ?_, ?_⟩
      · show (unbind s _ dir kick).proteins.length = _
        exact unbind_proteins_length _ _ _ _
      · show (unbind s _ dir kick).params = _
        exact unbind_params _ _ _ _
      · show (unbind s _ dir kick).ligands.dropLast.length = _
        rw [List.length_dropLast, (unbind_ligands_length _ _ _ _).1]
        simp
      · show (unbind s _ dir kick).competitors.length = _
        rw [(unbind_ligands_length _ _ _ _).2]
        simp
  · show (removeLigE Species.competitor dir kick s).proteins.length = _ ∧ _
    unfold removeLigE
    by_cases hne : s.competitors.isEmpty = true
    · rw [if_pos hne]
      have : s.competitors = [] := List.isEmpty_iff.1 hne
      rw [this]
      exact ⟨rfl, rfl, rfl, rfl⟩
    · rw [if_neg hne]
      refine ⟨?_, ?_, ?_, ?_⟩
      · show (unbind s _ dir kick).proteins.length = _
        exact unbind_proteins_length _ _ _ _
      · show (unbind s _ dir kick).params = _
        exact unbind_params _ _ _ _
      · show (unbind s _ dir kick).ligands.length = _
        rw [(unbind_ligands_length _ _ _ _).1]
        simp
      · show (unbind s _ dir kick).competitors.dropLast.length = _
        rw [List.length_dropLast, (unbind_ligands_length _ _ _ _).2]
        simp

theorem removeLigsE_shape (sp : Species) (dirs : ℕ → Vec) (kicks : ℕ → ℚ)
    (n : ℕ) :
    ∀ s : SimState,
      (removeLigsE sp dirs kicks n s).proteins.length = s.proteins.length ∧
      (removeLigsE sp dirs kicks n s).params = s.params ∧
      (removeLigsE sp dirs kicks n s).ligands.length
        = s.ligands.length - (if sp = Species.normal then n else 0) ∧
      (removeLigsE sp dirs kicks n s).competitors.length
        = s.competitors.length - (if sp = Species.normal then 0 else n) := by
  induction n generalizing dirs kicks with
  | zero =>
      intro s
      refine ⟨rfl, rfl, ?_, ?_⟩ <;> cases sp <;>
        simp only [ite_self, Nat.sub_zero] <;> rfl
  | succ k ih =>
      intro s
      have hstep : removeLigsE sp dirs kicks (k + 1) s
          = removeLigsE sp (fun j => dirs (j + 1)) (fun j => kicks (j + 1)) k
            (removeLigE sp (dirs 0) (kicks 0) s) := rfl
      obtain ⟨h1, h2, h3, h4⟩ := ih (fun j => dirs (j + 1)) (fun j => kicks (j + 1))
        (removeLigE sp (dirs 0) (kicks 0) s)
      obtain ⟨g1, g2, g3, g4⟩ := removeLigE_shape sp (dirs 0) (kicks 0) s
      rw [hstep]
      refine ⟨?_, ?_, ?_, ?_⟩
      · rw [h1, g1]
      · rw [h2, g2]
      · rw [h3, g3]
        cases sp <;> simp <;> omega
      · rw [h4, g4]
        cases sp <;> simp <;> omega

/-! ## The `Endprodukt.py` reconciliation: exact counts -/

theorem reconcileProteinsE_shape (o : SpawnOracle) (s : SimState) :
    (reconcileProteinsE o s).proteins.length = s.params.num_proteins ∧
    (reconcileProteinsE o s).ligands.length = s.ligands.length ∧
    (reconcileProteinsE o s).competitors.length = s.competitors.length ∧
    (reconcileProteinsE o s).params = s.params := by
  unfold reconcileProteinsE
  by_cases h1 : s.proteins.length < s.params.num_proteins
  · rw [if_pos h1]
    obtain ⟨a1, a2, a3, a4⟩ := addProteins_shape o.sampleP
      (s.params.num_proteins - s.proteins.length) s
    refine ⟨?_, ?_, ?_, a4⟩
    · rw [a1]
      omega
    · rw [a2]
    · rw [a3]
  · rw [if_neg h1]
    by_cases h2 : s.params.num_proteins < s.proteins.length
    · rw [if_pos h2]
      obtain ⟨a1, a2, a3, a4⟩ := removeProteinsE_shape o.remDirP o.remKickP
        (s.proteins.length - s.params.num_proteins) s
      refine ⟨?_, a2, a3, a4⟩
      rw [a1]
      omega
    · rw [if_neg h2]
      exact ⟨by omega, rfl, rfl, rfl⟩

theorem reconcileLigsE_shape (o : SpawnOracle) (s : SimState) :
    (reconcileLigsE o s).proteins.length = s.proteins.length ∧
    (reconcileLigsE o s).ligands.length = s.params.num_ligands ∧
    (reconcileLigsE o s).competitors.length = s.competitors.length ∧
    (reconcileLigsE o s).params = s.params := by
  unfold reconcileLigsE
  by_cases h1 : s.ligands.length < s.params.num_ligands
  · rw [if_pos h1]
    obtain ⟨a1, a2, a3, a4⟩ := addLigs_shape Species.normal o.sampleL
      (s.params.num_ligands - s.ligands.length) s
    refine ⟨?_, ?_, ?_, a2⟩
    · rw [a1]
    · rw [a3]
      simp
      omega
    · rw [a4]
      simp
  · rw [if_neg h1]
    by_cases h2 : s.params.num_ligands < s.ligands.length
    · rw [if_pos h2]
      obtain ⟨a1, a2, a3, a4⟩ := removeLigsE_shape Species.normal o.remDirL
        o.remKickL (s.ligands.length - s.params.num_ligands) s
      refine ⟨a1, ?_, ?_, a2⟩
      · rw [a3]
        simp
        omega
      · rw [a4]
        simp
    · rw [if_neg h2]
      exact ⟨rfl, by omega, rfl, rfl⟩

theorem reconcileCompsE_shape (o : SpawnOracle) (s : SimState) :
    (reconcileCompsE o s).proteins.length = s.proteins.length ∧
    (reconcileCompsE o s).ligands.length = s.ligands.length ∧
    (reconcileCompsE o s).competitors.length = s.params.num_competitor_ligands ∧
    (reconcileCompsE o s).params = s.params := by
  unfold reconcileCompsE
  by_cases h1 : s.competitors.length < s.params.num_competitor_ligands
  · rw [if_pos h1]
    obtain ⟨a1, a2, a3, a4⟩ := addLigs_shape Species.competitor o.sampleC
      (s.params.num_competitor_ligands - s.competitors.length) s
    refine ⟨?_, ?_, ?_, a2⟩
    · rw [a1]
    · rw [a3]
      simp
    · rw [a4]
      simp
      omega
  · rw [if_neg h1]
    by_cases h2 : s.params.num_competitor_ligands < s.competitors.length
    · rw [if_pos h2]
      obtain ⟨a1, a2, a3, a4⟩ := removeLigsE_shape Species.competitor o.remDirC
        o.remKickC (s.competitors.length - s.params.num_competitor_ligands) s
      refine ⟨a1, ?_, ?_, a2⟩
      · rw [a3]
        simp
      · rw [a4]
        simp
        omega
    · rw [if_neg h2]
      exact ⟨rfl, rfl, by omega, rfl⟩

/-- `_update_particle_counts` of `Endprodukt.py` leaves exactly the slider
target number of particles of each kind, and the parameters unchanged. -/
theorem reconcileE_counts (o : SpawnOracle) (s : SimState) :
    (reconcileE o s).proteins.length = s.params.num_proteins ∧
    (reconcileE o s).ligands.length = s.params.num_ligands ∧
    (reconcileE o s).competitors.length = s.params.num_competitor_ligands ∧
    (reconcileE o s).params = s.params := by
  obtain ⟨p1, p2, p3, p4⟩ := reconcileProteinsE_shape o s
  obtain ⟨l1, l2, l3, l4⟩ := reconcileLigsE_shape o (reconcileProteinsE o s)
  obtain ⟨c1, c2, c3, c4⟩ :=
    reconcileCompsE_shape o (reconcileLigsE o (reconcileProteinsE o s))
  have hre : reconcileE o s
      = reconcileCompsE o (reconcileLigsE o (reconcileProteinsE o s)) := rfl
  rw [hre]
  refine ⟨?_, ?_, ?_, ?_⟩
  · rw [c1, l1, p1]
  · rw [c2, l2, p4]
  · rw [c3, l4, p4]
  · rw [c4, l4, p4]

/-! ## No operation of the reconciliation creates a binding -/

/-- Between a state and a later state: every surviving bound ligand was
already bound before, to the same protein index.  All the operations of
`_update_particle_counts` only free, append fresh-unbound, or pop ligands,
so they all satisfy this relation. -/
def noNewBinding (s s' : SimState) : Prop :=
  ∀ (r : LigRef) (lig' : Ligand), s'.getLig r = some lig' →
    lig'.is_bound = true →
    ∃ lig, s.getLig r = some lig ∧ lig.is_bound = true ∧
      lig.bound_to = lig'.bound_to

theorem noNewBinding_refl (s : SimState) : noNewBinding s s :=
  fun _ lig' hg hb => ⟨lig', hg, hb, rfl⟩

theorem noNewBinding_trans {s1 s2 s3 : SimState}
    (h12 : noNewBinding s1 s2) (h23 : noNewBinding s2 s3) :
    noNewBinding s1 s3 := by
  intro r lig' hg hb
  obtain ⟨lig2, hg2, hb2, he2⟩ := h23 r lig' hg hb
  obtain ⟨lig1, hg1, hb1, he1⟩ := h12 r lig2 hg2 hb2
  exact ⟨lig1, hg1, hb1, he1.trans he2⟩

theorem noNewBinding_of_getLig_eq (s s' : SimState)
    (h : ∀ r, s'.getLig r = s.getLig r) : noNewBinding s s' := by
  intro r lig' hg hb
  rw [h r] at hg
  exact ⟨lig', hg, hb, rfl⟩

theorem noNewBinding_unbind (s : SimState) (r : LigRef) (d : Vec) (k : ℚ) :
    noNewBinding s (unbind s r d k) := by
  intro r' lig' hg' hb'
  by_cases hrr : r' = r
  · subst hrr
    cases hgs : s.getLig r' with
    | none =>
        have heqs : unbind s r' d k = s := by
          unfold unbind
          rw [hgs]
        rw [heqs, hgs] at hg'
        exact Option.noConfusion hg'

    | some lig =>
        obtain ⟨lig0, hg0, hb0, hn0⟩ := unbind_free_after s r' d k lig hgs
        rw [hg'] at hg0
        injection hg0 with he
        rw [he] at hb'
        rw [hb'] at hb0
        exact Bool.noConfusion hb0
  · rw [unbind_getLig_ne s r r' d k hrr] at hg'
    exact ⟨lig', hg', hb', rfl⟩

theorem noNewBinding_appendLig (s : SimState) (sp : Species) (l : Ligand)
    (hl : l.is_bound = false) :
    noNewBinding s (appendLig s sp l).1 := by
  intro r lig' hg' hb'
  rcases getLig_appendLig_cases s sp l r lig' hg' with h | h
  · exact ⟨lig', h, hb', rfl⟩
  · rw [h] at hb'
    rw [hb'] at hl
    exact Bool.noConfusion hl

theorem noNewBinding_addLigs (sp : Species) (smp : ℕ → ℕ → Vec) (n : ℕ) :
    ∀ s : SimState, noNewBinding s (addLigs sp smp n s) := by
  induction n generalizing smp with
  | zero => exact fun s => noNewBinding_refl s
  | succ k ih =>
      intro s
      have hstep : addLigs sp smp (k + 1) s
          = addLigs sp (fun j => smp (j + 1)) k
            (unbind
              (appendLig s sp
                (newLigand sp (createPos (allSpheres s) ligandRadius (smp 0)))).1
              (appendLig s sp
                (newLigand sp (createPos (allSpheres s) ligandRadius (smp 0)))).2
              Vec.zero 0) := rfl
      rw [hstep]
      have hap : noNewBinding s
          (appendLig s sp
            (newLigand sp (createPos (allSpheres s) ligandRadius (smp 0)))).1 :=
        noNewBinding_appendLig s sp _ rfl
      have hub : noNewBinding s
          (unbind
            (appendLig s sp
              (newLigand sp (createPos (allSpheres s) ligandRadius (smp 0)))).1
            (appendLig s sp
              (newLigand sp (createPos (allSpheres s) ligandRadius (smp 0)))).2
            Vec.zero 0) :=
        noNewBinding_trans hap (noNewBinding_unbind _ _ _ _)
      exact noNewBinding_trans hub (ih (fun j => smp (j + 1)) _)

theorem noNewBinding_addProteins (smp : ℕ → ℕ → Vec) (n : ℕ) (s : SimState) :
    noNewBinding s (addProteins smp n s) := by
  obtain ⟨-, h2, h3, -⟩ := addProteins_shape smp n s
  refine noNewBinding_of_getLig_eq s _ ?_
  intro r
  rcases r with ⟨sp, i⟩
  cases sp
  · show (addProteins smp n s).ligands[i]? = s.ligands[i]?
    rw [h2]
  · show (addProteins smp n s).competitors[i]? = s.competitors[i]?
    rw [h3]

theorem getElem?_dropLast_some {α : Type} (l : List α) (i : ℕ) (a : α)
    (h : l.dropLast[i]? = some a) : l[i]? = some a := by
  have hi : i < l.dropLast.length := (List.getElem?_eq_some.1 h).1
  have hi2 : i < l.length := by
    rw [List.length_dropLast] at hi
    omega
  rw [List.getElem?_eq_getElem hi] at h
  rw [List.getElem?_eq_getElem hi2]
  rw [List.getElem_dropLast] at h
  exact h

theorem noNewBinding_removeProteinE (dirs : ℕ → Vec) (kicks : ℕ → ℚ)
    (s : SimState) : noNewBinding s (removeProteinE dirs kicks s) := by
  unfold removeProteinE
  split
  · exact noNewBinding_refl s
  · next lastP hlast =>
      have hfold : noNewBinding s
          (lastP.bound_ligands.enum.foldl
            (fun st ir => unbind st ir.2 (dirs ir.1) (kicks ir.1)) s) := by
        clear hlast
        generalize lastP.bound_ligands.enum = L
        induction L generalizing s with
        | nil => exact noNewBinding_refl s
        | cons a t ih =>
            rw [List.foldl_cons]
            exact noNewBinding_trans
              (noNewBinding_unbind s a.2 (dirs a.1) (kicks a.1)) (ih _)
      exact noNewBinding_trans hfold
        (noNewBinding_of_getLig_eq _ _ (fun r => rfl))

theorem noNewBinding_removeProteinsE (dirs : ℕ → ℕ → Vec)
    (kicks : ℕ → ℕ → ℚ) (n : ℕ) :
    ∀ s : SimState, noNewBinding s (removeProteinsE dirs kicks n s) := by
  induction n generalizing dirs kicks with
  | zero => exact fun s => noNewBinding_refl s
  | succ k ih =>
      intro s
      have hstep : removeProteinsE dirs kicks (k + 1) s
          = removeProteinsE (fun j => dirs (j + 1)) (fun j => kicks (j + 1)) k
            (removeProteinE (dirs 0) (kicks 0) s) := rfl
      rw [hstep]
      exact noNewBinding_trans (noNewBinding_removeProteinE (dirs 0) (kicks 0) s)
        (ih (fun j => dirs (j + 1)) (fun j => kicks (j + 1)) _)

theorem noNewBinding_removeLigE (sp : Species) (dir : Vec) (kick : ℚ)
    (s : SimState) : noNewBinding s (removeLigE sp dir kick s) := by
  cases sp
  · unfold removeLigE
    by_cases hne : s.ligands.isEmpty = true
    · rw [if_pos hne]
      exact noNewBinding_refl s
    · rw [if_neg hne]
      refine noNewBinding_trans
        (noNewBinding_unbind s ⟨Species.normal, s.ligands.length - 1⟩ dir kick)
        ?_
      intro r lig' hg' hb'
      rcases r with ⟨sp', i⟩
      cases sp'
      · have hg'' : (unbind s ⟨Species.normal, s.ligands.length - 1⟩ dir
            kick).ligands.dropLast[i]? = some lig' := hg'
        exact ⟨lig', getElem?_dropLast_some _ _ _ hg'', hb', rfl⟩
      · exact ⟨lig', hg', hb', rfl⟩
  · unfold removeLigE
    by_cases hne : s.competitors.isEmpty = true
    · rw [if_pos hne]
      exact noNewBinding_refl s
    · rw [if_neg hne]
      refine noNewBinding_trans
        (noNewBinding_unbind s ⟨Species.competitor, s.competitors.length - 1⟩
          dir kick) ?_
      intro r lig' hg' hb'
      rcases r with ⟨sp', i⟩
      cases sp'
      · exact ⟨lig', hg', hb', rfl⟩
      · have hg'' : (unbind s ⟨Species.competitor, s.competitors.length - 1⟩
            dir kick).competitors.dropLast[i]? = some lig' := hg'
        exact ⟨lig', getElem?_dropLast_some _ _ _ hg'', hb', rfl⟩

theorem noNewBinding_removeLigsE (sp : Species) (dirs : ℕ → Vec)
    (kicks : ℕ → ℚ) (n : ℕ) :
    ∀ s : SimState, noNewBinding s (removeLigsE sp dirs kicks n s) := by
  induction n generalizing dirs kicks with
  | zero => exact fun s => noNewBinding_refl s
  | succ k ih =>
      intro s
      have hstep : removeLigsE sp dirs kicks (k + 1) s
          = removeLigsE sp (fun j => dirs (j + 1)) (fun j => kicks (j + 1)) k
            (removeLigE sp (dirs 0) (kicks 0) s) := rfl
      rw [hstep]
      exact noNewBinding_trans (noNewBinding_removeLigE sp (dirs 0) (kicks 0) s)
        (ih (fun j => dirs (j + 1)) (fun j => kicks (j + 1)) _)

theorem noNewBinding_reconcileProteinsE (o : SpawnOracle) (s : SimState) :
    noNewBinding s (reconcileProteinsE o s) := by
  unfold reconcileProteinsE
  split
  · exact noNewBinding_addProteins _ _ s
  · split
    · exact noNewBinding_removeProteinsE _ _ _ s
    · exact noNewBinding_refl s

theorem noNewBinding_reconcileLigsE (o : SpawnOracle) (s : SimState) :
    noNewBinding s (reconcileLigsE o s) := by
  unfold reconcileLigsE
  split
  · exact noNewBinding_addLigs _ _ _ s
  · split
    · exact noNewBinding_removeLigsE _ _ _ _ s
    · exact noNewBinding_refl s

theorem noNewBinding_reconcileCompsE (o : SpawnOracle) (s : SimState) :
    noNewBinding s (reconcileCompsE o s) := by
  unfold reconcileCompsE
  split
  · exact noNewBinding_addLigs _ _ _ s
  · split
    · exact noNewBinding_removeLigsE _ _ _ _ s
    · exact noNewBinding_refl s

theorem noNewBinding_reconcileE (o : SpawnOracle) (s : SimState) :
    noNewBinding s (reconcileE o s) := by
  have hre : reconcileE o s
      = reconcileCompsE o (reconcileLigsE o (reconcileProteinsE o s)) := rfl
  rw [hre]
  exact noNewBinding_trans (noNewBinding_reconcileProteinsE o s)
    (noNewBinding_trans (noNewBinding_reconcileLigsE o _)
      (noNewBinding_reconcileCompsE o _))

/-- Under the binding invariant, every ligand that entered the
`Endprodukt.py` reconciliation bound to a protein index at or beyond the
target count (so its protein is removed) is free afterwards, with no
dangling back-reference. -/
theorem reconcileE_frees_dangling (o : SpawnOracle) (s : SimState)
    (hInv : Inv s) (r : LigRef) (lig lig' : Ligand) (pi : ℕ)
    (hget : s.getLig r = some lig) (hbt : lig.bound_to = some pi)
    (hpi : s.params.num_proteins ≤ pi)
    (hget' : (reconcileE o s).getLig r = some lig') :
    lig'.is_bound = false ∧ lig'.bound_to = none := by
  have hInv' := inv_reconcileE o s hInv
  cases hb' : lig'.is_bound with
  | true =>
      exfalso
      obtain ⟨lig0, hg0, hb0, he0⟩ :=
        noNewBinding_reconcileE o s r lig' hget' hb'
      rw [hget] at hg0
      injection hg0 with he
      rw [← he] at he0
      rw [hbt] at he0
      have hOK := hInv'.2 r lig' hget'
      obtain ⟨pi2, pro, hbt2, hp2, -⟩ := ligOK_bound_elim _ _ _ hOK hb'
      rw [← he0] at hbt2
      injection hbt2 with hpe
      rw [← hpe] at hp2
      have hlt : pi < (reconcileE o s).proteins.length :=
        (List.getElem?_eq_some.1 hp2).1
      have hc := (reconcileE_counts o s).1
      omega
  | false =>
      have hOK := hInv'.2 r lig' hget'
      exact ⟨rfl, ligOK_free_elim _ _ _ hOK hb'⟩

/-- C4: after reconciliation toward the slider targets, the `Endprodukt.py`
copy leaves exactly the target number of each particle kind, and — under the
binding invariant — every ligand that was bound to a removed protein (an
index at or beyond the protein target) is free afterwards, with no dangling
`bound_to` reference; but the `Simulation.py` copy of
`_update_particle_counts` pops proteins without unbinding: from `c1BadState`
(one protein holding one bound ligand, protein target 0) it leaves zero
proteins while the surviving ligand still has `is_bound` set and `bound_to`
pointing at the removed protein index 0. -/
theorem c4_reconciliation :
    (∀ (o : SpawnOracle) (s : SimState),
      (reconcileE o s).proteins.length = s.params.num_proteins ∧
      (reconcileE o s).ligands.length = s.params.num_ligands ∧
      (reconcileE o s).competitors.length
        = s.params.num_competitor_ligands) ∧
    (∀ (o : SpawnOracle) (s : SimState) (r : LigRef) (lig lig' : Ligand)
      (pi : ℕ), Inv s → s.getLig r = some lig → lig.bound_to = some pi →
      s.params.num_proteins ≤ pi → (reconcileE o s).getLig r = some lig' →
      lig'.is_bound = false ∧ lig'.bound_to = none) ∧
    ((reconcileSim demoSpawnOracle c1BadState).proteins.length = 0 ∧
      (reconcileSim demoSpawnOracle c1BadState).getLig ⟨Species.normal, 0⟩
        = some ⟨⟨100, 100⟩, Vec.zero, BOUND_LIGAND_COLOR, true, some 0⟩) := by
  refine ⟨?_, ?_, rfl, rfl⟩
  · intro o s
    obtain ⟨h1, h2, h3, -⟩ := reconcileE_counts o s
    exact ⟨h1, h2, h3⟩
  · intro o s r lig lig' pi hInv hget hbt hpi hget'
    exact reconcileE_frees_dangling o s hInv r lig lig' pi hget hbt hpi hget'

/-- Witness for C4: reconciling `c1BadState` (protein target 0, one bound
ligand) through the `Endprodukt.py` copy leaves zero proteins and the
surviving ligand free with no back-reference. -/
theorem c4_reconciliation_witness :
    (reconcileE demoSpawnOracle c1BadState).proteins.length = 0 ∧
    ∃ lig', (reconcileE demoSpawnOracle c1BadState).getLig
        ⟨Species.normal, 0⟩ = some lig' ∧
      lig'.is_bound = false ∧ lig'.bound_to = none := by
  have hlen : (reconcileE demoSpawnOracle c1BadState).ligands.length = 1 :=
    (c4_reconciliation.1 demoSpawnOracle c1BadState).2.1
  have h0 : 0 < (reconcileE demoSpawnOracle c1BadState).ligands.length := by
    rw [hlen]
    omega
  have hg' : (reconcileE demoSpawnOracle c1BadState).getLig
      ⟨Species.normal, 0⟩
      = some ((reconcileE demoSpawnOracle c1BadState).ligands.get ⟨0, h0⟩) := by
    show (reconcileE demoSpawnOracle c1BadState).ligands[0]? = _
    exact List.getElem?_eq_getElem h0
  refine ⟨(c4_reconciliation.1 demoSpawnOracle c1BadState).1, _, hg', ?_⟩
  exact c4_reconciliation.2.1 demoSpawnOracle c1BadState ⟨Species.normal, 0⟩
    ⟨⟨100, 100⟩, Vec.zero, BOUND_LIGAND_COLOR, true, some 0⟩ _ 0
    inv_c1BadState rfl rfl (Nat.le_refl 0) hg'

/-! ## Wall containment of positions -/

/-- A center position within `[min + radius, max - radius]` on both axes of
a rectangle: the arena-bounds predicate of the spec. -/
def inBoundsPos (rect : Rect) (radius : ℚ) (p : Vec) : Prop :=
  (rect.left + radius ≤ p.x ∧ p.x ≤ rect.right - radius) ∧
  (rect.top + radius ≤ p.y ∧ p.y ≤ rect.bottom - radius)

theorem wallBounce_mem (rect : Rect) (radius : ℚ) (pos vel : Vec)
    (hw : 2 * radius ≤ rect.right - rect.left)
    (hh : 2 * radius ≤ rect.bottom - rect.top) :
    inBoundsPos rect radius (wallBounce rect radius pos vel).1 := by
  obtain ⟨hx1, hx2⟩ := bounceAxis_mem rect.left rect.right radius pos.x vel.x hw
  obtain ⟨hy1, hy2⟩ := bounceAxis_mem rect.top rect.bottom radius pos.y vel.y hh
  exact ⟨⟨hx1, hx2⟩, hy1, hy2⟩

theorem movePhase_protein_inBounds (o : Oracle) (s : SimState) (i : ℕ)
    (p : Protein) (hp : (movePhase o s).proteins[i]? = some p) :
    inBoundsPos simRect proteinRadius p.pos := by
  rw [movePhase_proteins, getElem?_mapIdxFrom] at hp
  cases hp0 : s.proteins[i]? with
  | none =>
      rw [hp0] at hp
      exact Option.noConfusion hp
  | some q =>
      rw [hp0, Option.map_some'] at hp
      injection hp with hpe
      rw [← hpe]
      show inBoundsPos simRect proteinRadius
        (wallBounce simRect proteinRadius
          (moveBrownian (o.dispP (0 + i)) q.pos) q.vel).1
      exact wallBounce_mem _ _ _ _ (by norm_num [simRect, proteinRadius])
        (by norm_num [simRect, proteinRadius])

theorem movePhase_freeLig_inBounds (o : Oracle) (s : SimState) (r : LigRef)
    (lig : Ligand) (hg : (movePhase o s).getLig r = some lig)
    (hfree : lig.is_bound = false) :
    inBoundsPos simRect ligandRadius lig.pos := by
  rw [getLig_movePhase] at hg
  cases hg0 : s.getLig r with
  | none =>
      rw [hg0] at hg
      exact Option.noConfusion hg
  | some l0 =>
      rw [hg0, Option.map_some'] at hg
      injection hg with he
      cases hb0 : l0.is_bound with
      | true =>
          rw [← he, moveLig_of_bound _ _ _ hb0] at hfree
          rw [hfree] at hb0
          exact Bool.noConfusion hb0
      | false =>
          rw [← he]
          show inBoundsPos simRect ligandRadius
            (moveLig simRect (ligDisp o r) l0).pos
          unfold moveLig
          rw [hb0, if_neg Bool.false_ne_true]
          show inBoundsPos simRect ligandRadius
            (wallBounce simRect ligandRadius
              (moveBrownian (ligDisp o r) l0.pos) l0.vel).1
          exact wallBounce_mem _ _ _ _ (by norm_num [simRect, ligandRadius])
            (by norm_num [simRect, ligandRadius])

theorem foldl_processLig_protPos (o : Oracle) (L : List LigRef) :
    ∀ (s : SimState) (j : ℕ),
      protPos (L.foldl
        (fun st r => processLig st r (o.offDraw r) (o.onDraw r) (o.dir r)
          (o.kick r)) s).proteins j
        = protPos s.proteins j := by
  induction L with
  | nil => exact fun s j => rfl
  | cons a t ih =>
      intro s j
      rw [List.foldl_cons, ih, processLig_protPos]

theorem step_protein_inBounds (o : Oracle) (s : SimState) (i : ℕ)
    (p : Protein) (hpause : s.paused = false)
    (hp : (step o s).proteins[i]? = some p) :
    inBoundsPos simRect proteinRadius p.pos := by
  unfold step at hp
  rw [hpause, if_neg Bool.false_ne_true] at hp
  have hpp := foldl_processLig_protPos o (ligRefs (movePhase o s))
    (movePhase o s) i
  unfold protPos at hpp
  rw [hp, Option.map_some'] at hpp
  cases hq : (movePhase o s).proteins[i]? with
  | none =>
      rw [hq] at hpp
      exact Option.noConfusion hpp
  | some q =>
      rw [hq, Option.map_some'] at hpp
      injection hpp with hpe
      rw [hpe]
      exact movePhase_protein_inBounds o s i q hq

/-- See `c8_counterexample`: a protein near the left wall holding a bound
ligand. -/
def c8State : SimState :=
  { params := defaultParams,
    paused := false,
    proteins := [⟨⟨20, 400⟩, Vec.zero, PROTEIN_COLOR, [⟨Species.normal, 0⟩]⟩],
    ligands := [⟨⟨20, 400⟩, Vec.zero, BOUND_LIGAND_COLOR, true, some 0⟩],
    competitors := [], time_steps := [], bound_ligands_data := [],
    bound_competitor_data := [] }

/-- An oracle whose `p_off` draw fires and whose unbind direction points at
the left wall. -/
def c8Oracle : Oracle :=
  { dispP := fun _ => Vec.zero, dispL := fun _ => Vec.zero,
    dispC := fun _ => Vec.zero,
    offDraw := fun _ => true, onDraw := fun _ _ => false,
    dir := fun _ => ⟨-1, 0⟩, kick := fun _ => 1 }

theorem c8_moveP : moveProtein simRect Vec.zero
    (⟨⟨20, 400⟩, Vec.zero, PROTEIN_COLOR, [⟨Species.normal, 0⟩]⟩ : Protein)
    = ⟨⟨20, 400⟩, Vec.zero, PROTEIN_COLOR, [⟨Species.normal, 0⟩]⟩ := by
  unfold moveProtein wallBounce moveBrownian
  rw [bounceAxis_uncorrected, bounceAxis_uncorrected]
  · show (⟨⟨20 + 0, 400 + 0⟩, Vec.zero, PROTEIN_COLOR,
      [⟨Species.normal, 0⟩]⟩ : Protein) = _
    norm_num
  · show ¬((400 : ℚ) + 0 - proteinRadius < simRect.top ∨
      simRect.bottom < 400 + 0 + proteinRadius)
    norm_num [simRect, proteinRadius]
  · show ¬((20 : ℚ) + 0 - proteinRadius < simRect.left ∨
      simRect.right < 20 + 0 + proteinRadius)
    norm_num [simRect, proteinRadius]

theorem c8_movePhase : movePhase c8Oracle c8State = c8State := by
  have h : movePhase c8Oracle c8State
      = { c8State with proteins := [moveProtein simRect Vec.zero
          ⟨⟨20, 400⟩, Vec.zero, PROTEIN_COLOR, [⟨Species.normal, 0⟩]⟩] } := rfl
  rw [h, c8_moveP]
  rfl

theorem c8_step : step c8Oracle c8State
    = processLig c8State ⟨Species.normal, 0⟩ true (fun _ => false)
        ⟨-1, 0⟩ 1 := by
  unfold step
  rw [c8_movePhase]
  rfl

theorem c8_processLig :
    processLig c8State ⟨Species.normal, 0⟩ true (fun _ => false) ⟨-1, 0⟩ 1
      = unbind c8State ⟨Species.normal, 0⟩ ⟨-1, 0⟩ 1 := rfl

theorem c8_unbind : unbind c8State ⟨Species.normal, 0⟩ ⟨-1, 0⟩ 1
    = { c8State with
        proteins := [⟨⟨20, 400⟩, Vec.zero, PROTEIN_COLOR, []⟩],
        ligands := [⟨⟨20 + (15 + 6 + 2) * (-1), 400 + (15 + 6 + 2) * 0⟩,
          ⟨1 * (-1), 1 * 0⟩, NORMAL_LIGAND_COLOR, false, none⟩] } := rfl

/-- C8 counterexample: from `c8State` — a protein at `(20, 400)` (inside
the arena) holding a bound ligand — a tick whose `p_off` draw fires and
whose unbind direction points at the left wall leaves the released ligand
centred at `x = 20 - 23 = -3`, outside `[radius, width - radius]`: the
step operation does not keep every particle within the arena bounds. -/
theorem c8_counterexample :
    ∃ lig, (step c8Oracle c8State).getLig ⟨Species.normal, 0⟩ = some lig ∧
      ¬ inBoundsPos simRect ligandRadius lig.pos := by
  refine ⟨⟨⟨20 + (15 + 6 + 2) * (-1), 400 + (15 + 6 + 2) * 0⟩,
    ⟨1 * (-1), 1 * 0⟩, NORMAL_LIGAND_COLOR, false, none⟩, ?_, ?_⟩
  · rw [c8_step, c8_processLig, c8_unbind]
    rfl
  · intro h
    norm_num [inBoundsPos, simRect, ligandRadius] at h

/-- C8 (amended): the move phase of each tick leaves every protein's and
every free ligand's center within `[radius, dimension - radius]` on both
axes of the arena, and the whole step keeps every protein in bounds; a
ligand released by `unbind` during the binding phase of the step may
however be placed outside the arena (it is clamped again at its next move
phase). -/
theorem c8_position_bounds :
    (∀ (o : Oracle) (s : SimState) (i : ℕ) (p : Protein),
        (movePhase o s).proteins[i]? = some p →
        inBoundsPos simRect proteinRadius p.pos) ∧
    (∀ (o : Oracle) (s : SimState) (r : LigRef) (lig : Ligand),
        (movePhase o s).getLig r = some lig → lig.is_bound = false →
        inBoundsPos simRect ligandRadius lig.pos) ∧
    (∀ (o : Oracle) (s : SimState) (i : ℕ) (p : Protein),
        s.paused = false → (step o s).proteins[i]? = some p →
        inBoundsPos simRect proteinRadius p.pos) :=
  ⟨movePhase_protein_inBounds, movePhase_freeLig_inBounds,
    fun o s i p hpause hp => step_protein_inBounds o s i p hpause hp⟩

/-- Witness for C8: the protein of `c8State` is in bounds after the move
phase and after the whole step. -/
theorem c8_position_bounds_witness :
    inBoundsPos simRect proteinRadius (⟨20, 400⟩ : Vec) ∧
    inBoundsPos simRect proteinRadius
      ((⟨⟨20, 400⟩, Vec.zero, PROTEIN_COLOR, []⟩ : Protein)).pos := by
  constructor
  · exact c8_position_bounds.1 c8Oracle c8State 0
      ⟨⟨20, 400⟩, Vec.zero, PROTEIN_COLOR, [⟨Species.normal, 0⟩]⟩
      (by rw [c8_movePhase]; rfl)
  · exact c8_position_bounds.2.2 c8Oracle c8State 0
      ⟨⟨20, 400⟩, Vec.zero, PROTEIN_COLOR, []⟩ rfl
      (by rw [c8_step, c8_processLig, c8_unbind]; rfl)

end Wirkstoff
